import Mathlib

/-
Verification of the SOD library splitter (`splitter7.py`), the core of this
repository: a symbol-extraction and module-partitioning engine that splits a
monolithic C file into per-module header/implementation pairs.

This file is a shallow embedding of the splitter's logic:
 * Python strings are Lean `String`s; line-oriented processing works on
   `List String`; character scans work on `List Char`.
 * The regular-expression scans of the source are translated into explicit
   character-level matchers; each matcher's doc comment names the regex of
   `splitter7.py` it embeds.
 * Python dictionaries (which iterate in insertion order) are association
   lists in insertion order; `collections.Counter` is an association list of
   counts in first-seen order, with `most_common(1)` taking the earliest
   maximum, exactly as Python's stable sort does.
 * The filesystem written by the splitter is an association list from path to
   file content, written and rewritten in program order.

All definitions are executable; theorems about the spec's claims follow at
the end of the file.
-/

set_option maxRecDepth 4000
set_option linter.unusedVariables false

namespace SodSplitter

/-! ## String and character infrastructure -/
/-- Python's `\s` / `str.strip` whitespace set. -/
def pyIsSpace (c : Char) : Bool :=
  c = ' ' || c = '\t' || c = '\n' || c = '\r' || c = '\x0b' || c = '\x0c'

/-- A regex word character: `[a-zA-Z0-9_]`. -/
def isWordChar (c : Char) : Bool :=
  ('a' ≤ c && c ≤ 'z') || ('A' ≤ c && c ≤ 'Z') || ('0' ≤ c && c ≤ '9') || c = '_'

/-- A regex identifier start: `[a-zA-Z_]`. -/
def isIdentStart (c : Char) : Bool :=
  ('a' ≤ c && c ≤ 'z') || ('A' ≤ c && c ≤ 'Z') || c = '_'

/-- Substring test on character lists (Python's `pat in s`). -/
def containsSub : List Char → List Char → Bool
  | [], pat => pat.isEmpty
  | c :: t, pat => pat.isPrefixOf (c :: t) || containsSub t pat

/-- Python's `pat in s` on strings. -/
def strContains (s pat : String) : Bool :=
  containsSub s.toList pat.toList

/-- Python's `s.startswith(pre)`.  (Core `String.startsWith` works on
byte positions and does not reduce in the kernel, so we use the
character list.) -/
def pyStartsWith (s pre : String) : Bool :=
  pre.toList.isPrefixOf s.toList

/-- Python's `s.endswith(suf)`. -/
def pyEndsWith (s suf : String) : Bool :=
  suf.toList.reverse.isPrefixOf s.toList.reverse

/-- ASCII lower-casing of one character (what Python's `str.lower()`
does on the ASCII identifiers this program handles). -/
def charLower (c : Char) : Char :=
  if 'A' ≤ c && c ≤ 'Z' then Char.ofNat (c.toNat + 32) else c

/-- Python's `s.lower()` (ASCII). -/
def pyLower (s : String) : String :=
  String.mk (s.toList.map charLower)

/-- Python's `s[n:]` (character slicing). -/
def pyDrop (s : String) (n : Nat) : String :=
  String.mk (s.toList.drop n)

/-- Python's `s[:n]` (character slicing). -/
def pyTake (s : String) (n : Nat) : String :=
  String.mk (s.toList.take n)

/-- Python's `str.strip()` (both ends, Python whitespace set). -/
def pyStrip (s : String) : String :=
  String.mk (((s.toList.dropWhile pyIsSpace).reverse.dropWhile pyIsSpace).reverse)

/-- Split a character list on `'\n'`. -/
def splitNlChars : List Char → List (List Char)
  | [] => [[]]
  | c :: t =>
    let r := splitNlChars t
    if c = '\n' then [] :: r
    else
      match r with
      | h :: t' => (c :: h) :: t'
      | [] => [[c]]

/-- Python's `str.split('\n')`. -/
def pySplitNl (s : String) : List String :=
  (splitNlChars s.toList).map String.mk

/-- Python's `str.splitlines()` for strings whose only line terminator is
`'\n'`: like `split('\n')` but without a final empty line when the string
ends in a newline, and `[]` on the empty string. -/
def pySplitlines (s : String) : List String :=
  if s = "" then []
  else
    let l := pySplitNl s
    if l.getLast? = some "" then l.dropLast else l

/-- `'\n'.join`. -/
def nlJoin : List String → String
  | [] => ""
  | [s] => s
  | s :: t => s ++ "\n" ++ nlJoin t

/-! ## The static configuration tables of `splitter7.py` -/
/-- `COMMON_TYPES` (splitter7.py lines 62-71). -/
def COMMON_TYPES : List String :=
  ["network", "layer", "tree", "box", "sod_cnn", "sod_img", "sod_box",
   "sod_pts", "SyBlob", "SySet", "SyString", "sod_vfs",
   "sod_label_coord", "sod_config_layer", "IplImage", "CvCapture",
   "local_layer", "cost_layer", "avgpool_layer", "connected_layer",
   "convolutional_layer", "detection_layer", "dropout_layer",
   "maxpool_layer", "route_layer", "softmax_layer", "crop_layer",
   "network_state", "size_params", "HANDLE", "WIN32_FIND_DATAW"]

/-- `COMMON_ENUMS` (lines 74-77). -/
def COMMON_ENUMS : List String :=
  ["SOD_CNN_LAYER_TYPE", "ACTIVATION", "COST_TYPE", "learning_rate_policy",
   "SOD_REALNET_NET_TYPE", "SOD_TR_SAMPLE_TYPE"]

/-- `REQUIRED_CONSTANTS` (lines 80-84). -/
def REQUIRED_CONSTANTS : List String :=
  ["SOD_OK", "SOD_UNSUPPORTED", "SOD_OUTOFMEM", "SOD_ABORT",
   "SOD_IOERR", "SOD_LIMIT", "SOD_APIEXPORT",
   "MIN", "MAX", "TWO_PI"]

/-- `STANDARD_HEADERS` (lines 87-95). -/
def STANDARD_HEADERS : List String :=
  ["<stdlib.h>", "<stdint.h>", "<stddef.h>", "<string.h>", "<math.h>",
   "<float.h>", "<stdio.h>"]

/-! ## Element records

`Element = namedtuple('Element', ['name', 'type', 'content', 'start', 'end',
'deps'])` (line 26).  `deps` is a Python `set`; we keep it as a
deduplicated list in first-occurrence order and only ever test membership,
so the unordered nature of Python sets is immaterial to the theorems. -/
structure Element where
  name : String
  etype : String
  content : String
  start : Nat
  endPos : Nat
  deps : List String
  deriving DecidableEq, Repr

/-! ## Module classifier cascades (`_determine_*_component`) -/
/-- `_determine_function_component` (lines 865-946).  The `content`
parameter is kept to mirror the Python signature; the body, like the
Python body, never consults it. -/
def determineFunctionComponent (funcName content : String) : String :=
  if pyStartsWith funcName "forward_" || pyStartsWith funcName "backward_" then
    if strContains funcName "softmax" then "softmax_impl"
    else if strContains funcName "batchnorm" then "batchnorm_impl"
    else if strContains funcName "connected" then "connected_impl"
    else if strContains funcName "convolutional" then "convolutional"
    else if strContains funcName "local" then "local_layer"
    else if strContains funcName "cost" then "cost_layer"
    else if strContains funcName "route" then "route_layer"
    else "nn_utils"
  else if pyStartsWith funcName "make_" then
    if strContains funcName "softmax" then "softmax_impl"
    else if strContains funcName "batchnorm" then "batchnorm_impl"
    else if strContains funcName "connected" then "connected_impl"
    else if strContains funcName "local" then "local_layer"
    else if strContains funcName "cost" then "cost_layer"
    else if strContains funcName "route" then "route_layer"
    else "nn_utils"
  else if (["relu_", "logistic_", "tanh_", "elu_", "leaky_",
            "activate", "gradient", "stair_", "hardtan_",
            "lhtan_", "relie_", "ramp_", "plse_", "loggy_"].any
             (fun act => pyStartsWith funcName act)) then "activation"
  else if pyStartsWith funcName "SyBlob" || pyStartsWith funcName "SySet"
       || pyStartsWith funcName "SyString" then "data_structures"
  else if pyStartsWith funcName "UnixVfs" || pyStartsWith funcName "WinVfs"
       || pyStartsWith funcName "UnixDir" || pyStartsWith funcName "WinDir" then "vfs"
  else if strContains (pyLower funcName) "box" then "box_utils"
  else if (["img", "image"].any (fun x => strContains (pyLower funcName) x)) then "img_utils"
  else if (["_cpu"].any (fun x => pyEndsWith funcName x)) then "cpu_utils"
  else if strContains (pyLower funcName) "rnn" || strContains (pyLower funcName) "gru"
       || strContains (pyLower funcName) "lstm" then "rnn"
  else if strContains (pyLower funcName) "cnn" then "cnn"
  else if strContains (pyLower funcName) "detect" || strContains (pyLower funcName) "realnet" then
    "detection"
  else if (["parse_", "option_", "load_"].any (fun x => pyStartsWith funcName x)) then
    "cfg_parser"
  else "nn_utils"

/-- `_determine_struct_component` (lines 948-983). -/
def determineStructComponent (structName content : String) : String :=
  if ["layer", "network", "network_state", "size_params"].contains structName then "nn_types"
  else if ["SyBlob", "SySet", "SyString"].contains structName then "data_structures"
  else if structName = "box" || strContains (pyLower structName) "box" then "box_utils"
  else if strContains (pyLower structName) "img" || strContains (pyLower structName) "image" then
    "img_utils"
  else if strContains (pyLower structName) "vfs" then "vfs"
  else if strContains (pyLower structName) "cnn" then "cnn"
  else if strContains (pyLower structName) "detect" || strContains (pyLower structName) "realnet" then
    "detection"
  else if (["config", "list", "section", "node"].any
            (fun x => strContains (pyLower structName) x)) then "cfg_parser"
  else "data_structures"

/-- `_determine_global_component` (lines 985-1012). -/
def determineGlobalComponent (globalName content : String) : String :=
  if (["weights", "biases", "scales", "rolling", "adam"].any
       (fun x => strContains globalName x)) then "nn_utils"
  else if (["activate", "gradient"].any (fun x => strContains globalName x)) then "activation"
  else if (["img", "image", "pixel"].any (fun x => strContains (pyLower globalName) x)) then
    "img_utils"
  else if (["detect", "box", "anchor"].any (fun x => strContains (pyLower globalName) x)) then
    "detection"
  else if (["file", "dir", "path"].any (fun x => strContains (pyLower globalName) x)) then "vfs"
  else if strContains (pyLower globalName) "cnn" then "cnn"
  else "common"

/-- `_determine_enum_component` (lines 1014-1029). -/
def determineEnumComponent (enumName content : String) : String :=
  if (["ACTIVATION", "COST_TYPE", "layer_type"].any (fun x => strContains enumName x)) then
    "nn_types"
  else if strContains enumName "CNN" then "cnn"
  else if (["REALNET", "TR_SAMPLE"].any (fun x => strContains enumName x)) then "detection"
  else "common"

/-- `_determine_typedef_component` (lines 1031-1054). -/
def determineTypedefComponent (typedefName content : String) : String :=
  if (["network", "layer", "cost", "activation"].any
       (fun x => strContains typedefName x)) then "nn_types"
  else if (["Sy", "blob", "set", "string"].any (fun x => strContains typedefName x)) then
    "data_structures"
  else if (["img", "image", "ipl"].any (fun x => strContains (pyLower typedefName) x)) then
    "img_utils"
  else if (["detect", "box", "pts"].any (fun x => strContains (pyLower typedefName) x)) then
    "detection"
  else if (["vfs", "file", "dir"].any (fun x => strContains (pyLower typedefName) x)) then "vfs"
  else "common"

/-- `_determine_macro_component` (lines 1056-1079). -/
def determineMacroComponent (macroName content : String) : String :=
  if REQUIRED_CONSTANTS.contains macroName then "common"
  else if (["LAYER", "ACTIVATION", "WEIGHT"].any (fun x => strContains macroName x)) then
    "nn_types"
  else if (["img", "image", "pixel"].any (fun x => strContains (pyLower macroName) x)) then
    "img_utils"
  else if (["BOX", "DETECT", "CNN"].any (fun x => strContains macroName x)) then "detection"
  else if (["FILE", "DIR", "PATH"].any (fun x => strContains macroName x)) then "vfs"
  else "common"

/-- The component decision of `_map_typedefs` (lines 677-693): the
`'_layer'` suffix rule is tested BEFORE the `COMMON_TYPES` pin. -/
def mapTypedefComponentOf (name content : String) : String :=
  if pyEndsWith name "_layer" then "nn_types"
  else if COMMON_TYPES.contains name then "common"
  else determineTypedefComponent name content

/-- The component decision of `_map_enums` (lines 660-675): the
`COMMON_ENUMS` pin is tested before the cascade. -/
def mapEnumComponentOf (name content : String) : String :=
  if COMMON_ENUMS.contains name then "common"
  else determineEnumComponent name content

/-- The component decision of `_map_macros` (lines 708-723): the
`REQUIRED_CONSTANTS` pin is tested before the cascade. -/
def mapMacroComponentOf (name content : String) : String :=
  if REQUIRED_CONSTANTS.contains name then "common"
  else determineMacroComponent name content

/-! ## Condition normalization and similarity (`_are_conditions_similar`) -/
/-- Match of the regex `#if\w*\s+` at the head of a character list,
returning the number of characters consumed (`\w*` and `\s+` both greedy;
nothing follows them in the pattern, so greedy matching is exact). The
match always consumes at least 4 characters. -/
def matchIfWs (l : List Char) : Option Nat :=
  match l with
  | '#' :: 'i' :: 'f' :: rest =>
      let w := (rest.takeWhile isWordChar).length
      let s := (((rest.drop w).takeWhile pyIsSpace)).length
      if 0 < s then some (3 + w + s) else none
  | _ => none

/-- `re.sub(r'#if\w*\s+', '', condition)` (line 833): delete every
(non-overlapping, leftmost) match of `#if\w*\s+`.  `matchIfWs` never
returns `some 0`, so resuming at `t.drop (n - 1)` resumes exactly after
the match; each step consumes at least one character, so the list's
length bounds the recursion and is carried structurally. -/
def subIfAllFuel : Nat → List Char → List Char
  | 0, l => l
  | _, [] => []
  | fuel + 1, c :: t =>
    match matchIfWs (c :: t) with
    | some n => subIfAllFuel fuel (t.drop (n - 1))
    | none => c :: subIfAllFuel fuel t

def subIfAll (l : List Char) : List Char :=
  subIfAllFuel l.length l

/-- Condition normalization used by `_are_conditions_similar`. -/
def normalizeCondition (condition : String) : String :=
  String.mk (subIfAll condition.toList)

/-- The platform macros of `_are_conditions_similar` (line 842). -/
def similarPlatformList : List String :=
  ["_WIN32", "__APPLE__", "__linux__", "_MSC_VER", "OS_WIN", "OS_UNIX", "OS_OTHER"]

/-- The feature-guard name starts of `_are_conditions_similar` (line 850). -/
def similarFeatureList : List String :=
  ["HAVE_", "USE_", "ENABLE_", "CONFIG_", "WITH_"]

/-- `_are_conditions_similar` (lines 830-863). -/
def areConditionsSimilar (condition1 condition2 : String) : Bool :=
  let c1 := normalizeCondition condition1
  let c2 := normalizeCondition condition2
  if c1 = c2 then true
  else if (similarPlatformList.any fun p => strContains c1 p)
       && (similarPlatformList.any fun p => strContains c2 p) then true
  else if (similarFeatureList.any fun f => pyStartsWith c1 f)
       && (similarFeatureList.any fun f => pyStartsWith c2 f) then true
  else if pyStartsWith c1 "!" && decide (pyDrop c1 1 = c2) then true
  else if pyStartsWith c2 "!" && decide (pyDrop c2 1 = c1) then true
  else false

/-! ## The regex matchers used by `_map_conditionals` -/
/-- Consume a literal; return the remaining characters. -/
def matchLit : List Char → List Char → Option (List Char)
  | l, [] => some l
  | [], _ :: _ => none
  | c :: t, p :: q => if c = p then matchLit t q else none

/-- `\s*`. -/
def dropWs (l : List Char) : List Char := l.dropWhile pyIsSpace

/-- `\s+` (greedy; nothing later in these patterns can match a whitespace
character, so greedy matching without backtracking is exact). -/
def matchWsPlus : List Char → Option (List Char)
  | [] => none
  | c :: t => if pyIsSpace c then some (t.dropWhile pyIsSpace) else none

/-- Match of `#if\s+defined\s*\(\s*(ALT1|ALT2|...)\s*\)` at the head of
`l`, with the alternatives tried left to right (regex backtracking across
the alternation).  Used for the two forced-component checks of
`_map_conditionals` (lines 745 and 750). -/
def matchIfDefinedAt (alts : List String) (l : List Char) : Bool :=
  match matchLit l "#if".toList with
  | none => false
  | some r1 =>
    match matchWsPlus r1 with
    | none => false
    | some r2 =>
      match matchLit r2 "defined".toList with
      | none => false
      | some r3 =>
        match matchLit (dropWs r3) "(".toList with
        | none => false
        | some r5 =>
          let r6 := dropWs r5
          alts.any fun a =>
            match matchLit r6 a.toList with
            | none => false
            | some r7 =>
              match matchLit (dropWs r7) ")".toList with
              | none => false
              | some _ => true

/-- `re.search` with a Boolean matcher: does the pattern match at any
position? -/
def searchAny (p : List Char → Bool) : List Char → Bool
  | [] => p []
  | c :: t => p (c :: t) || searchAny p t

/-- `re.search(r'#if\s+defined\s*\(\s*(_WIN32|__APPLE__|__linux__|_MSC_VER)\s*\)', content)`
as a Boolean (line 745). -/
def searchPlatformDefined (content : String) : Bool :=
  searchAny (matchIfDefinedAt ["_WIN32", "__APPLE__", "__linux__", "_MSC_VER"]) content.toList

/-- `re.search(r'#if\s+defined\s*\(\s*(OS_WIN|OS_UNIX|OS_OTHER)\s*\)', content)`
as a Boolean (line 750). -/
def searchOsDefined (content : String) : Bool :=
  searchAny (matchIfDefinedAt ["OS_WIN", "OS_UNIX", "OS_OTHER"]) content.toList

/-- Match of `#if(n)?def\s+([a-zA-Z_][a-zA-Z0-9_]*)` at the head of `l`,
returning group 2 (the macro name).  `(n)?` is greedy with backtracking:
try consuming `n` first, else without. -/
def matchIfdefNameAt (l : List Char) : Option String :=
  match matchLit l "#if".toList with
  | none => none
  | some r1 =>
    let tailFrom : List Char → Option String := fun r =>
      match matchLit r "def".toList with
      | none => none
      | some r2 =>
        match matchWsPlus r2 with
        | none => none
        | some r3 =>
          match r3 with
          | [] => none
          | d :: u =>
            if isIdentStart d then some (String.mk (d :: u.takeWhile isWordChar)) else none
    match r1 with
    | 'n' :: r1' =>
      match tailFrom r1' with
      | some s => some s
      | none => tailFrom r1
    | _ => tailFrom r1

/-- First (leftmost) match of `#if(n)?def\s+([a-zA-Z_][a-zA-Z0-9_]*)` in
the content, returning the macro name (group 2); the macro-owner check of
`_map_conditionals` (lines 755-764). -/
def searchFirstIfdefName : List Char → Option String
  | [] => none
  | c :: t =>
    match matchIfdefNameAt (c :: t) with
    | some s => some s
    | none => searchFirstIfdefName t

/-! ## Symbol map, votes, and the conditional-group component decision -/
/-- The symbol map as far as `_map_conditionals` consults it: symbol name
to optional assigned component (`'component' in info`), in dictionary
insertion order. -/
abbrev SymbolMap := List (String × Option String)

/-- Python `macro_name in symbol_map` plus the `'component'` lookup:
returns the entry if present (dictionary keys are unique, so the first
entry is the entry). -/
def lookupSym (sm : SymbolMap) (name : String) : Option (Option String) :=
  match sm with
  | [] => none
  | (k, v) :: t => if k = name then some v else lookupSym t name

/-- A `collections.Counter` over component names: counts in first-seen
order. -/
abbrev CompCounter := List (String × Nat)

/-- `counter[k] += 1`. -/
def counterAdd (cnt : CompCounter) (k : String) : CompCounter :=
  match cnt with
  | [] => [(k, 1)]
  | (k', n) :: t => if k' = k then (k', n + 1) :: t else (k', n) :: counterAdd t k

/-- `Counter.most_common(1)[0][0]`: the key with the greatest count;
Python's sort is stable, so ties go to the earliest-inserted key. -/
def mostCommon1 (cnt : CompCounter) : Option String :=
  match cnt with
  | [] => none
  | p :: t => some ((t.foldl (fun best q => if q.2 > best.2 then q else best) p).1)

/-- The symbol-vote loop of `_map_conditionals` (lines 767-769): for each
symbol with an assigned component, one vote per conditional whose content
contains the symbol's name. -/
def componentVotes (sm : SymbolMap) (content : String) (cnt : CompCounter) : CompCounter :=
  sm.foldl
    (fun c p =>
      match p.2 with
      | some comp => if strContains content p.1 then counterAdd c comp else c
      | none => c)
    cnt

/-- The per-group loop of `_map_conditionals` (lines 741-769): scan the
group's conditionals in order; the first forced rule to fire breaks out
of the loop (discarding nothing already voted, exactly as the Python
`break` leaves `component_votes` populated by the earlier iterations);
otherwise the conditional contributes its symbol votes. -/
def forcedAndVotes (sm : SymbolMap) : List Element → CompCounter → Option String × CompCounter
  | [], cnt => (none, cnt)
  | c :: rest, cnt =>
    if searchPlatformDefined c.content then (some "common", cnt)
    else if searchOsDefined c.content then (some "common", cnt)
    else
      match searchFirstIfdefName c.content.toList with
      | some mname =>
        match lookupSym sm mname with
        | some (some comp) => (some comp, cnt)
        | _ => forcedAndVotes sm rest (componentVotes sm c.content cnt)
      | none => forcedAndVotes sm rest (componentVotes sm c.content cnt)

/-- The component decision for one conditional group (lines 771-777):
forced component if any, else majority vote, else `'common'`. -/
def determineGroupComponent (sm : SymbolMap) (group : List Element) : String :=
  match forcedAndVotes sm group [] with
  | (some comp, _) => comp
  | (none, cnt) =>
    match mostCommon1 cnt with
    | some comp => comp
    | none => "common"

/-! ## Dependency extraction (`_extract_dependencies`) -/
/-- The keyword stoplist of `_extract_dependencies` (lines 578-581). -/
def depKeywords : List String :=
  ["if", "else", "while", "for", "return", "break", "continue",
   "static", "const", "void", "int", "float", "double", "char",
   "unsigned", "signed", "typedef", "struct", "enum", "union",
   "extern", "sizeof", "NULL", "size_t"]

/-- Emit one finished word-character run (held in reverse): the regex
keeps a maximal run exactly when its first character is a letter or an
underscore (a run starting with a digit contains no word boundary and
never matches). -/
def finishRun (cur : List Char) : List String :=
  match cur.reverse with
  | [] => []
  | c0 :: rest => if isIdentStart c0 then [String.mk (c0 :: rest)] else []

/-- Character-by-character scan accumulating the current word run in
reverse. -/
def wordsOfGo : List Char → List Char → List String
  | [], cur => finishRun cur
  | c :: t, cur =>
    if isWordChar c then wordsOfGo t (c :: cur)
    else finishRun cur ++ wordsOfGo t []

/-- The words matched by `\b([a-zA-Z_][a-zA-Z0-9_]*)\b` (line 575): the
maximal runs of word characters that start with a letter or underscore. -/
def wordsOf (l : List Char) : List String :=
  wordsOfGo l []

/-- Keep first occurrences only (the model of a Python `set` built by
insertion; only membership is ever consulted). -/
def dedupFirst : List String → List String
  | [] => []
  | s :: t => if t.contains s then dedupFirst t else s :: dedupFirst t

/-- `_extract_dependencies` (lines 570-587): all words minus the keyword
stoplist, as a set. -/
def extractDependencies (content : String) : List String :=
  dedupFirst ((wordsOf content.toList).filter fun w => !(depKeywords.contains w))

/-! ## Conditional extraction (`extract_conditionals`, lines 260-375) -/
/-- The directive-line collection of `extract_conditionals` (lines
262-277): `(line number, stripped text)` for every line that starts with
a preprocessor conditional directive, skipping the bare `endif` / `else`
/ `else if` text lines. -/
def directiveLines (lines : List String) : List (Nat × String) :=
  lines.enum.filterMap fun p =>
    let stripped := pyStrip p.2
    if stripped = "endif" || stripped = "else" || pyStartsWith stripped "else if" then none
    else if pyStartsWith stripped "#if" || pyStartsWith stripped "#else"
         || pyStartsWith stripped "#elif" || pyStartsWith stripped "#endif"
         || pyStartsWith stripped "#ifdef" || pyStartsWith stripped "#ifndef" then
      some (p.1, stripped)
    else none

/-- One step of the nesting stack of the inner scan (lines 299-305); all
three opening spellings begin with `#if`, mirrored verbatim anyway. -/
def scanStep (d : String) (stack : Nat) : Nat :=
  if pyStartsWith d "#if" || pyStartsWith d "#ifdef" || pyStartsWith d "#ifndef" then
    stack + 1
  else if pyStartsWith d "#endif" then stack - 1
  else stack

/-- The inner scan of `extract_conditionals` (lines 287-314): walk the
remaining directives maintaining the nesting stack; return the block's
directives, the matching `#endif`'s line, and the directives after it,
or `none` when the stack never returns to zero. -/
def scanChain : List (Nat × String) → Nat → List (Nat × String) →
    Option (List (Nat × String) × Nat × List (Nat × String))
  | [], _, _ => none
  | (ln, d) :: rest, stack, acc =>
    if scanStep d stack = 0 then some (acc ++ [(ln, d)], ln, rest)
    else scanChain rest (scanStep d stack) (acc ++ [(ln, d)])

/-- Character offset of line `k`: `len('\n'.join(lines[:k]))`. -/
def charOffsetUpTo (lines : List String) (k : Nat) : Nat :=
  (nlJoin (lines.take k)).toList.length

/-- Python's `s.split(' ', 1)[1]` when `' ' in s`, else `none`. -/
def afterFirstSpace : List Char → Option (List Char)
  | [] => none
  | c :: t => if c = ' ' then some t else afterFirstSpace t

/-- The complete-block branch of `extract_conditionals` (lines 317-348):
the Conditional element for a block from `startLine` to `endLine`, with
one line of context on either side where possible, named
`multipart_conditional_<condition>` when the block contains an `#elif`
or `#else`. -/
def mkCondElement (lines : List String) (startLine endLine : Nat)
    (blockLines : List (Nat × String)) (directive : String) : Element :=
  let contextStart := startLine - 1
  let contextEnd := min (lines.length - 1) (endLine + 1)
  let content := nlJoin ((lines.drop contextStart).take (contextEnd + 1 - contextStart))
  let isMultipart := blockLines.any fun p =>
    pyStartsWith p.2 "#elif" || pyStartsWith p.2 "#else"
  let name :=
    if isMultipart then
      "multipart_conditional_" ++
        (match afterFirstSpace directive.toList with
         | some c => String.mk c
         | none => "condition")
    else "conditional"
  { name := name, etype := "conditional", content := content,
    start := charOffsetUpTo lines contextStart,
    endPos := charOffsetUpTo lines (contextEnd + 1),
    deps := extractDependencies content }

/-- The synthetic `#endif` comment appended to an unterminated
conditional (line 359). -/
def unterminatedFixText : String :=
  "\n#endif /* Auto-added to fix unterminated conditional */\n"

/-- The unterminated branch of `extract_conditionals` (lines 352-372):
the remaining source from the opening line, with one synthetic `#endif`
appended. -/
def mkFixedElement (lines : List String) (startLine : Nat) (fullLen : Nat) : Element :=
  let content := nlJoin (lines.drop startLine) ++ unterminatedFixText
  { name := "conditional_fixed", etype := "conditional", content := content,
    start := charOffsetUpTo lines startLine,
    endPos := fullLen,
    deps := extractDependencies content }

/-- The outer loop of `extract_conditionals` (lines 280-375), returning
the extracted Conditional elements together with the number of
`"Warning: Unterminated conditional"` messages printed.  On an
unterminated block the Python code sets `i = len(directive_lines)`,
ending the loop, so that branch is terminal.  The recursion consumes at
least one directive per step, so it is bounded by the number of
directives; `fuel` carries that bound structurally and
`extractCondLoopAux_fuel_irrel` shows any sufficient bound computes the
same result. -/
def extractCondLoopAux (lines : List String) (fullLen : Nat) :
    Nat → List (Nat × String) → List Element × Nat
  | _, [] => ([], 0)
  | 0, _ :: _ => ([], 0)
  | fuel + 1, (ln, d) :: rest =>
    if pyStartsWith d "#if" then
      match scanChain rest 1 [(ln, d)] with
      | some (blockLines, endLine, remaining) =>
        let r := extractCondLoopAux lines fullLen fuel remaining
        (mkCondElement lines ln endLine blockLines d :: r.1, r.2)
      | none => ([mkFixedElement lines ln fullLen], 1)
    else extractCondLoopAux lines fullLen fuel rest

/-- The outer loop, run with the always-sufficient bound. -/
def extractCondLoop (lines : List String) (fullLen : Nat)
    (ds : List (Nat × String)) : List Element × Nat :=
  extractCondLoopAux lines fullLen ds.length ds

/-- `extract_conditionals` applied to a source string. -/
def extractConditionals (src : String) : List Element × Nat :=
  let lines := pySplitlines src
  extractCondLoop lines src.toList.length (directiveLines lines)

/-- Independent specification of "the directive stream ends with an
unclosed `#if`/`#ifdef`/`#ifndef`": nesting depth over the stream, where
an `#endif` at depth zero is ignored (the outer loop of
`extract_conditionals` never enters it) and depth never returns to zero
by the end. -/
def clampedDepth : List (Nat × String) → Nat → Nat
  | [], d => d
  | (_, s) :: rest, d =>
    if pyStartsWith s "#if" then clampedDepth rest (d + 1)
    else if pyStartsWith s "#endif" && decide (0 < d) then clampedDepth rest (d - 1)
    else clampedDepth rest d

/-! ## Conditional grouping (`_group_related_conditionals`, lines 783-828)
and group assignment (`_map_conditionals`, lines 779-781) -/
/-- `content.strip().split('\n')[0].strip()` (line 813). -/
def firstLineOf (content : String) : String :=
  pyStrip
    (match pySplitNl (pyStrip content) with
     | [] => ""
     | l :: _ => l)

/-- Python's `abs(a - b)` on the integer start offsets. -/
def natDist (a b : Nat) : Nat := max a b - min a b

/-- `any(e in group for group in conditional_groups.values())` (lines
804, 816). -/
def memAnyGroup (groups : List (List Element)) (e : Element) : Bool :=
  groups.any fun g => g.any fun x => decide (x = e)

/-- The inner `for other in conditionals` loop (lines 815-826): extend
the group created for `c` with every not-yet-grouped conditional of the
same name that is within 1000 characters and has a similar first-line
condition.  The membership test sees the growing group itself, exactly
as the Python dictionary holds the list being appended to. -/
def addOthersLoop (allGroups : List (List Element)) (c : Element)
    (g : List Element) : List Element → List Element
  | [] => g
  | o :: rest =>
    if decide (o = c) || memAnyGroup (allGroups ++ [g]) o then
      addOthersLoop allGroups c g rest
    else if natDist c.start o.start < 1000
        && areConditionsSimilar (firstLineOf c.content) (firstLineOf o.content) then
      addOthersLoop allGroups c (g ++ [o]) rest
    else
      addOthersLoop allGroups c g rest

/-- The `for conditional in conditionals` loop of the non-multipart
branch (lines 801-826): each not-yet-grouped conditional starts a new
group and pulls in its related conditionals. -/
def groupPlainLoop (allGroups : List (List Element)) (nameList : List Element) :
    List Element → List (List Element)
  | [] => allGroups
  | c :: rest =>
    if memAnyGroup allGroups c then groupPlainLoop allGroups nameList rest
    else
      groupPlainLoop (allGroups ++ [addOthersLoop allGroups c [c] nameList])
        nameList rest

/-- `name_groups = defaultdict(list)` filled in order (lines 789-792):
buckets keyed by element name, keys in first-occurrence order, elements
in stream order. -/
def addToNameGroups (acc : List (String × List Element)) (c : Element) :
    List (String × List Element) :=
  match acc with
  | [] => [(c.name, [c])]
  | (n, l) :: t =>
    if n = c.name then (n, l ++ [c]) :: t else (n, l) :: addToNameGroups t c

def nameGroupsOf (conds : List Element) : List (String × List Element) :=
  conds.foldl addToNameGroups []

/-- `_group_related_conditionals` (lines 783-828): multipart name
buckets become one group each; the rest go through the relation scan. -/
def groupRelatedConditionals (conds : List Element) : List (List Element) :=
  (nameGroupsOf conds).foldl
    (fun allGroups p =>
      if pyStartsWith p.1 "multipart_conditional_" then allGroups ++ [p.2]
      else groupPlainLoop allGroups p.2 p.2)
    []

/-- The final loop of `_map_conditionals` (lines 734-781): one component
per group, every conditional of the group appended to that component. -/
def condAssignments (sm : SymbolMap) (conds : List Element) :
    List (String × List Element) :=
  (groupRelatedConditionals conds).map fun g => (determineGroupComponent sm g, g)

/-! ## Output file assembly (`map_symbols_to_components`, lines 596-632,
and `create_output_files`, lines 1187-1423) -/
/-- `output_files` is a `defaultdict(list)`: component name to element
list, keys in insertion order. -/
abbrev OutputFiles := List (String × List Element)

/-- `self.output_files[component].append(elem)`. -/
def appendTo (of : OutputFiles) (comp : String) (e : Element) : OutputFiles :=
  match of with
  | [] => [(comp, [e])]
  | (k, l) :: t => if k = comp then (k, l ++ [e]) :: t else (k, l) :: appendTo t comp e

/-- `_map_functions` (lines 634-645). -/
def mapFunctions (of : OutputFiles) (fs : List Element) : OutputFiles :=
  fs.foldl (fun o f => appendTo o (determineFunctionComponent f.name f.content) f) of

/-- `_map_structs` (lines 647-658). -/
def mapStructs (of : OutputFiles) (ss : List Element) : OutputFiles :=
  ss.foldl (fun o s => appendTo o (determineStructComponent s.name s.content) s) of

/-- `_map_enums` (lines 660-675). -/
def mapEnums (of : OutputFiles) (es : List Element) : OutputFiles :=
  es.foldl (fun o e => appendTo o (mapEnumComponentOf e.name e.content) e) of

/-- `_map_typedefs` (lines 677-693). -/
def mapTypedefs (of : OutputFiles) (ts : List Element) : OutputFiles :=
  ts.foldl (fun o t => appendTo o (mapTypedefComponentOf t.name t.content) t) of

/-- `_map_globals` (lines 695-706). -/
def mapGlobals (of : OutputFiles) (gs : List Element) : OutputFiles :=
  gs.foldl (fun o g => appendTo o (determineGlobalComponent g.name g.content) g) of

/-- `_map_macros` (lines 708-723). -/
def mapMacros (of : OutputFiles) (ms : List Element) : OutputFiles :=
  ms.foldl (fun o m => appendTo o (mapMacroComponentOf m.name m.content) m) of

/-- Append a whole group to one component (lines 779-781). -/
def appendAll (of : OutputFiles) (comp : String) (es : List Element) : OutputFiles :=
  es.foldl (fun o e => appendTo o comp e) of

/-- `_map_conditionals`' appends (lines 734-781). -/
def mapConditionalsOF (sm : SymbolMap) (of : OutputFiles) (conds : List Element) :
    OutputFiles :=
  (condAssignments sm conds).foldl (fun o p => appendAll o p.1 p.2) of

/-- Stable insertion by `start`: a new element goes after every existing
element with `start` not greater, which is exactly Python's stable
`list.sort(key=lambda x: x.start)`. -/
def insertByStart (e : Element) : List Element → List Element
  | [] => [e]
  | x :: t => if e.start < x.start then e :: x :: t else x :: insertByStart e t

def sortByStart (l : List Element) : List Element :=
  l.foldl (fun acc e => insertByStart e acc) []

/-- `map_symbols_to_components` (lines 596-632): map each kind in order,
assign the conditionals group-wise, then sort every component's element
list by original position.  The symbol map used by the conditional
assignment is passed in (it is the map as populated by the preceding
mapping steps). -/
def mapSymbolsToComponents (fs ss es ts gs ms conds : List Element)
    (sm : SymbolMap) : OutputFiles :=
  (mapConditionalsOF sm
      (mapMacros
        (mapGlobals
          (mapTypedefs
            (mapEnums
              (mapStructs
                (mapFunctions [] fs) ss) es) ts) gs) ms) conds).map
    fun p => (p.1, sortByStart p.2)

/-- Python `s.find(c)` as an optional character index. -/
def charIndexOf : List Char → Char → Option Nat
  | [], _ => none
  | x :: t, c => if x = c then some 0 else (charIndexOf t c).map (· + 1)

/-- The function-prototype derivation of `create_output_files` (lines
1231-1238): truncate at the first `{`, strip, append `;`; yields no
header element when there is no brace or the declaration begins with
`static`. -/
def functionDeclContent (content : String) (i : Nat) : String :=
  pyStrip (pyTake content i) ++ ";"

def functionDeclElem (elem : Element) : Option Element :=
  match charIndexOf elem.content.toList '{' with
  | none => none
  | some i =>
    if pyStartsWith (functionDeclContent elem.content i) "static" then none
    else some { name := elem.name, etype := "declaration",
                content := functionDeclContent elem.content i,
                start := elem.start,
                endPos := elem.start + (functionDeclContent elem.content i).toList.length,
                deps := [] }

/-- The header check for conditionals (line 1244):
`re.search(struct_regex, content) or re.search(enum_regex, content) or
re.search(typedef_regex, content)`.  Every alternative of those three
regexes requires the literal substring `typedef` or `struct`, so this
substring test is a sound over-approximation of the search: when it is
`false` the regex search is certainly `false`.  Every theorem below that
evaluates it does so only under hypotheses or on inputs where it is
`false`, i.e. where it coincides with the regex search. -/
def condHasDeclShapedContent (content : String) : Bool :=
  strContains content "typedef" || strContains content "struct"

/-- The declaration-extraction branch for conditionals (lines
1246-1293).  In the Python this branch rebinds `header_content` (the
module header string) to a list, so any run that enters it fails the
later header write with a `TypeError` (caught by
`extract_and_process`'s handler).  All theorems below hypothesise
contents whose `condHasDeclShapedContent` is false, making this branch
unreachable in every verified run; it is modelled as keeping the
conditional's preprocessor directive lines. -/
def condDeclExtract (elem : Element) : List Element :=
  let directiveOnly :=
    nlJoin ((pySplitNl elem.content).filter fun line => pyStartsWith (pyStrip line) "#")
  [{ elem with content := directiveOnly }]

/-- What one element contributes to its module's header (the loop body
of lines 1221-1293). -/
def headerStep (fileKey : String) (elem : Element) : List Element :=
  if ["struct", "typedef", "macro", "enum"].contains elem.etype then
    if elem.etype = "enum"
        && ((fileKey = "nn_types"
              && ["SOD_CNN_LAYER_TYPE", "learning_rate_policy", "COST_TYPE"].contains
                   elem.name)
          || (fileKey = "activation" && elem.name = "ACTIVATION")) then []
    else [elem]
  else if elem.etype = "function" then
    match functionDeclElem elem with
    | some d => [d]
    | none => []
  else if elem.etype = "conditional" then
    if condHasDeclShapedContent elem.content then condDeclExtract elem
    else []
  else []

/-- The header-element collection of `create_output_files` (lines
1220-1293) for one module. -/
def headerElementsOf (fileKey : String) (elements : List Element) : List Element :=
  elements.foldl (fun acc elem => acc ++ headerStep fileKey elem) []

/-- `#if\b|#ifdef\b|#ifndef\b` requires a non-word character (or end of
text) after the matched token. -/
def isBoundaryAt (l : List Char) : Bool :=
  match l with
  | [] => true
  | c :: _ => !isWordChar c

/-- Match of `#if\b|#ifdef\b|#ifndef\b` at the head of the list
(alternatives tried in regex order), returning the characters after the
match. -/
def openMatchAt (l : List Char) : Option (List Char) :=
  match matchLit l "#if".toList with
  | none => none
  | some r =>
    if isBoundaryAt r then some r
    else
      match matchLit r "def".toList with
      | some r2 => if isBoundaryAt r2 then some r2 else none
      | none =>
        match matchLit r "ndef".toList with
        | some r2 => if isBoundaryAt r2 then some r2 else none
        | none => none

/-- Number of `re.findall(r'#if\b|#ifdef\b|#ifndef\b', ...)` matches
(lines 1301, 1367, 1589): non-overlapping, leftmost.  A match consumes
at least three characters, so the list's length bounds the scan and is
carried structurally as fuel. -/
def countOpensFuel : Nat → List Char → Nat
  | 0, _ => 0
  | _, [] => 0
  | fuel + 1, c :: t =>
    match openMatchAt (c :: t) with
    | some r => 1 + countOpensFuel fuel r
    | none => countOpensFuel fuel t

def countOpens (l : List Char) : Nat :=
  countOpensFuel l.length l

/-- Match of `#endif\b` at the head of the list. -/
def endifMatchAt (l : List Char) : Option (List Char) :=
  match matchLit l "#endif".toList with
  | none => none
  | some r => if isBoundaryAt r then some r else none

/-- Number of `re.findall(r'#endif\b', ...)` matches (lines 1303, 1369,
1590). -/
def countEndifFuel : Nat → List Char → Nat
  | 0, _ => 0
  | _, [] => 0
  | fuel + 1, c :: t =>
    match endifMatchAt (c :: t) with
    | some r => 1 + countEndifFuel fuel r
    | none => countEndifFuel fuel t

def countEndif (l : List Char) : Nat :=
  countEndifFuel l.length l

/-- `n` copies of a string appended together. -/
def repeatAppend (s : String) : Nat → String
  | 0 => ""
  | n + 1 => s ++ repeatAppend s n

/-- The balance fix applied to each conditional header/impl element
(lines 1297-1309 and 1363-1375): append one `#endif` comment line per
missing close. -/
def balanceFixContent (content : String) : String :=
  if countOpens content.toList > countEndif content.toList then
    content ++ repeatAppend "\n#endif /* End of condition */\n"
      (countOpens content.toList - countEndif content.toList)
  else content

def balanceFixConditional (elem : Element) : Element :=
  if elem.etype = "conditional" then
    { elem with content := balanceFixContent elem.content }
  else elem

/-- The implementation-side fix for conditionals (lines 1363-1393):
balance, then drop stray bare `endif` / `else if` text lines. -/
def implFixContent (content : String) : String :=
  let content1 := balanceFixContent content
  let lines := pySplitlines content1
  let fixedLines := lines.filter fun line =>
    !(pyStrip line = "endif" || pyStartsWith (pyStrip line) "else if")
  if fixedLines.length < lines.length then nlJoin fixedLines else content1

def implFixElement (elem : Element) : Element :=
  if elem.etype = "conditional" then
    { elem with content := implFixContent elem.content }
  else elem

/-- The implementation-element collection (lines 1356-1359): functions,
globals, and conditionals not placed in the header. -/
def implElementsOf (headerElems : List Element) (elements : List Element) :
    List Element :=
  elements.filter fun elem =>
    ["function", "global"].contains elem.etype
    || (elem.etype = "conditional" && !(headerElems.any fun e => decide (e = elem)))

/-- The final per-module header element list: collected declarations
with the conditional balance fix applied (lines 1296-1309). -/
def moduleHeaderElements (fileKey : String) (elements : List Element) : List Element :=
  (headerElementsOf fileKey elements).map balanceFixConditional

/-- The final per-module implementation element list (lines 1356-1393):
note the `header_elements` compared against have already been fixed. -/
def moduleImplElements (fileKey : String) (elements : List Element) : List Element :=
  (implElementsOf (moduleHeaderElements fileKey elements) elements).map implFixElement

/-- The stray-directive cleanup applied while emitting each
implementation element (lines 1396-1414). -/
def emissionClean (elem : Element) : String :=
  if elem.etype = "conditional" || elem.etype = "function" then
    let lines := pySplitlines elem.content
    let fixedLines := lines.filter fun line =>
      !(pyStrip line = "endif" || pyStrip line = "else"
        || pyStartsWith (pyStrip line) "else if")
    if fixedLines.length < lines.length then nlJoin fixedLines else elem.content
  else elem.content

/-- All header elements across all modules. -/
def allHeaderElems (of : OutputFiles) : List Element :=
  (of.map fun p => moduleHeaderElements p.1 p.2).flatten

/-- All implementation elements across all modules. -/
def allImplElems (of : OutputFiles) : List Element :=
  (of.map fun p => moduleImplElements p.1 p.2).flatten

/-- The combined contents of all components. -/
def flattenOF (of : OutputFiles) : List Element :=
  (of.map Prod.snd).flatten

/-- Whether the element `e` is a function whose derived prototype is
exactly `d`. -/
def declPred (d : Element) (e : Element) : Bool :=
  decide (e.etype = "function") && decide (functionDeclElem e = some d)

/-- Flattened contents of the name buckets. -/
def flattenSnd (ngs : List (String × List Element)) : List Element :=
  (ngs.map Prod.snd).flatten

/-- Every element of a bucket has the bucket's key as its name. -/
def bucketNamesOk (ngs : List (String × List Element)) : Prop :=
  ∀ p ∈ ngs, ∀ x ∈ p.2, x.name = p.1

/-- The bucket keys. -/
def bucketKeys (ngs : List (String × List Element)) : List String :=
  ngs.map Prod.fst

/-! ## Exit behavior (`main`, lines 2002-2054, and `extract_and_process`,
lines 1536-1566)

The process-level control flow is embedded as a function from the
observable events of one run (where an exception is raised, whether the
user interrupts, what the flags and the verification result are) to the
run's outcome (exit code, whether a traceback was printed, whether the
partial-completion notice was printed).  A `KeyboardInterrupt` is not an
`Exception` in Python, so it passes through the inner handler of
`extract_and_process` and reaches `main`'s `except KeyboardInterrupt`,
which prints the notice and falls off the end of `main` — exit code 0. -/
/-- The command-line flags consulted by `main`'s exit logic. -/
structure SplitterArgs where
  skipVerification : Bool
  strict : Bool
  deriving DecidableEq, Repr

/-- The observable events of one run. -/
structure RunEvents where
  /-- An exception in `EnhancedSodSplitter(...)` (line 2018), escaping to
  `main`'s top-level handler. -/
  constructorRaises : Bool
  /-- An exception inside the `try` of `extract_and_process` (lines
  1540-1561), caught by its own handler (lines 1563-1566). -/
  processingRaises : Bool
  /-- An exception in the `splitter._verify_output()` call from `main`
  (line 2032), escaping to `main`'s top-level handler. -/
  verifyRaises : Bool
  /-- A `KeyboardInterrupt` during the run. -/
  interrupted : Bool
  /-- `time.time() - start_time > max_time * 0.8` at line 2027. -/
  timeBudgetNearlyUsed : Bool
  /-- The Boolean returned by `_verify_output` (line 2032). -/
  issuesFound : Bool
  deriving DecidableEq, Repr

/-- The outcome of one run. -/
structure RunOutcome where
  exitCode : Nat
  tracebackPrinted : Bool
  partialNotice : Bool
  deriving DecidableEq, Repr

/-- The exception/exit structure of `main` (lines 2017-2054) with
`extract_and_process`'s internal handler (lines 1563-1566) inlined: that
handler prints the traceback and returns normally, so `main` continues
after a processing exception. -/
def mainRun (args : SplitterArgs) (ev : RunEvents) : RunOutcome :=
  if ev.interrupted then
    { exitCode := 0, tracebackPrinted := false, partialNotice := true }
  else if ev.constructorRaises then
    { exitCode := 1, tracebackPrinted := true, partialNotice := false }
  else
    let tb := ev.processingRaises
    if args.skipVerification then
      { exitCode := 0, tracebackPrinted := tb, partialNotice := false }
    else if ev.timeBudgetNearlyUsed then
      { exitCode := 0, tracebackPrinted := tb, partialNotice := false }
    else if ev.verifyRaises then
      { exitCode := 1, tracebackPrinted := true, partialNotice := false }
    else if args.strict && ev.issuesFound then
      { exitCode := 1, tracebackPrinted := tb, partialNotice := false }
    else
      { exitCode := 0, tracebackPrinted := tb, partialNotice := false }

/-- The conditional element used to refute C3: a platform guard in the
`#ifdef` form, together with one classified symbol occurring in the
content. -/
def c3Conditional : Element :=
  { name := "conditional", etype := "conditional",
    content := "#ifdef _WIN32\nfoo_cnn();\n#endif",
    start := 0, endPos := 31, deps := [] }

/-- Two concrete conditionals for the C1 witness. -/
def c1wA : Element :=
  { name := "conditional", etype := "conditional",
    content := "#ifdef A\nx\n#endif", start := 0, endPos := 18, deps := [] }

def c1wB : Element :=
  { name := "conditional", etype := "conditional",
    content := "#ifdef B\ny\n#endif", start := 30, endPos := 48, deps := [] }

/-! ## C4: one prototype, one body -/
def c4fun : Element :=
  { name := "foo", etype := "function",
    content := "int foo(void) \x7breturn 0;\x7d", start := 0, endPos := 25,
    deps := [] }

def c4decl : Element :=
  { name := "foo", etype := "declaration", content := "int foo(void);",
    start := 0, endPos := 14, deps := [] }

/-! ## The verification/repair pass (`_verify_output`, lines 1568-1613,
`_check_for_common_issues`, lines 1615-1788, and
`_check_for_macro_issues`, lines 1790-1947)

The per-file pass is embedded as a function from the file's content to
the file's content after the pass together with whether the pass
reported an issue for the file.  The embedding models the timeout
checks (`time.time() - start_time < max_processing_time`) as never
elapsed and runs on a non-Windows host (`os.name == 'nt'` false); the
`except` handlers are unreachable because every modelled operation is
total.  The final check for macros needing parentheses (lines
1925-1935) only prints warnings — it never changes the content or any
flag — and is therefore not part of the embedding. -/
/-- A maximal `[a-zA-Z_][a-zA-Z0-9_]*` run at the head of the list,
with the rest. -/
def takeIdentRun : List Char → Option (String × List Char)
  | [] => none
  | c :: t =>
    if isIdentStart c then some (String.mk (c :: t.takeWhile isWordChar), t.dropWhile isWordChar)
    else none

/-- Whether a line is counted by the unterminated-string check (lines
1632-1640): not a comment line, and an odd number of `"` characters. -/
def lineUnterminated (line : String) : Bool :=
  !(pyStartsWith (pyStrip line) "//") && !(pyStartsWith (pyStrip line) "/*")
    && decide ((line.toList.count '\x22') % 2 ≠ 0)

/-- The unterminated-string check and fix (lines 1626-1652): append a
closing quote to every flagged line. -/
def untermFix (c : String) : String × Bool :=
  let lines := pySplitNl c
  if lines.any lineUnterminated then
    (nlJoin (lines.map fun l => if lineUnterminated l then l ++ "\x22" else l), true)
  else (c, false)

/-- The character scan of the brace-balance check (lines 1662-1699):
`inStr` is the inner string-skipping loop, `ic` the multi-line
`in_comment` flag, `p` the previous character of the line
(`line[j-1]`).  A step consumes at least one character, so the line
length is carried as structural fuel. -/
def braceScanFuel : Nat → Bool → Bool → Option Char → List Char → Bool × Int
  | 0, _, ic, _, _ => (ic, 0)
  | _, _, ic, _, [] => (ic, 0)
  | fuel + 1, inStr, ic, p, ch :: rest =>
    if inStr then
      if ¬(ch = '\x22') ∨ p = some '\\' then braceScanFuel fuel true ic (some ch) rest
      else braceScanFuel fuel false ic (some ch) rest
    else if ch = '\x22' ∧ (p = none ∨ ¬(p = some '\\')) then
      braceScanFuel fuel true ic (some ch) rest
    else if ch = '/' ∧ rest.head? = some '/' then (ic, 0)
    else if ch = '/' ∧ rest.head? = some '*' then
      braceScanFuel fuel false true (some '*') (rest.drop 1)
    else if ic ∧ ch = '*' ∧ rest.head? = some '/' then
      braceScanFuel fuel false false (some '/') (rest.drop 1)
    else if ic then braceScanFuel fuel false ic (some ch) rest
    else
      let d : Int := if ch = '\x7b' then 1 else if ch = '\x7d' then -1 else 0
      let r := braceScanFuel fuel false ic (some ch) rest
      (r.1, d + r.2)

def braceLineScan (ic : Bool) (line : String) : Bool × Int :=
  braceScanFuel line.toList.length false ic none line.toList

def braceFoldLines : Bool → List String → Bool × Int
  | ic, [] => (ic, 0)
  | ic, l :: t =>
    let r1 := braceLineScan ic l
    let r2 := braceFoldLines r1.1 t
    (r2.1, r1.2 + r2.2)

/-- The final `brace_balance` of the scan over all lines. -/
def braceBalance (c : String) : Int :=
  (braceFoldLines false (pySplitNl c)).2

/-- `line[:last_brace] + '/* Extra closing brace removed */' +
line[last_brace+1:]` with `last_brace = line.rindex('}')` (lines
1723-1724). -/
def commentLastBrace (line : String) : String :=
  let rev := line.toList.reverse
  let afterRev := rev.takeWhile fun ch => ¬(ch = '\x7d')
  String.mk ((rev.drop afterRev.length).drop 1).reverse
    ++ "/* Extra closing brace removed */" ++ String.mk afterRev.reverse

/-- Eligibility of a line for the extra-brace fix (line 1721). -/
def braceNegEligible (l : String) : Bool :=
  strContains l "\x7d" && !(pyStartsWith (pyStrip l) "//") && !(strContains l "/*")

/-- The backwards loop commenting out extra closing braces (lines
1716-1725); the input list is the reversed line list. -/
def braceNegGo : Nat → List String → Nat × List String
  | extra, [] => (extra, [])
  | extra, l :: t =>
    if extra = 0 then (0, l :: t)
    else if braceNegEligible l then
      let r := braceNegGo (extra - 1) t
      (r.1, commentLastBrace l :: r.2)
    else
      let r := braceNegGo extra t
      (r.1, l :: r.2)

/-- The brace-balance check and fix (lines 1655-1727). -/
def braceStep (c : String) : String × Bool :=
  if braceBalance c = 0 then (c, false)
  else if 0 < braceBalance c then
    (c ++ "\n" ++ repeatAppend "\x7d" (braceBalance c).toNat
      ++ " /* Auto-added to balance braces */\n", true)
  else
    (nlJoin (braceNegGo (-braceBalance c).toNat (pySplitNl c).reverse).2.reverse, true)

/-- The struct/enum missing-semicolon check (lines 1730-1742).  Both
alternatives of its regex require the literal `typedef`, so on contents
without that substring the `findall` is empty and the check neither
flags nor rewrites — that case is modelled exactly.  On contents
containing `typedef` the check's backtracking regex may flag and
rewrite; that case is conservatively modelled as flagged with the
content unchanged, and no theorem below evaluates it. -/
def structEnumStep (c : String) : String × Bool :=
  if strContains c "typedef" then (c, true) else (c, false)

/-- The malformed-enum fixes (lines 1744-1762).  All three rewrite
patterns and both report patterns require a literal `}`; on contents
without that character (in the rewritten content for the `re.sub`s and
in the original `content` for the `findall`s) the step is exactly a
no-op.  Other contents are conservatively modelled as flagged with the
content unchanged, and no theorem below evaluates them. -/
def malformedEnumStep (orig c : String) : String × Bool :=
  if strContains c "\x7d" || strContains orig "\x7d" then (c, true) else (c, false)

/-- The `Windows.h` check (lines 1764-1769) on a non-Windows host: the
issue flag is exactly the substring test of line 1766.  On contents
containing the substring the `re.sub` of line 1768 may rewrite; that
rewrite is not modelled and no theorem below evaluates such contents. -/
def windowsIncludeStep (c : String) : String × Bool :=
  if strContains c "Windows.h" then (c, true) else (c, false)

/-- The long-`#define` trigger (line 1805). -/
def longDefTrigger (l : String) : Bool :=
  pyStartsWith l "#define" && decide (80 < l.toList.length) && !pyEndsWith l "\\"

/-- `line[:79] + ' \\'` (line 1808). -/
def longDefFixLine (l : String) : String :=
  pyTake l 79 ++ " \\"

/-- The long-`#define` loop (lines 1802-1814): the truncation is applied
to every triggering line, but `issues_fixed` is set only when the next
line exists and does not start with `#` (in which case it is
indented). -/
def longDefGoFuel : Nat → List String → List String × Bool
  | 0, ls => (ls, false)
  | _, [] => ([], false)
  | fuel + 1, l :: rest =>
    if longDefTrigger l then
      match rest with
      | [] => ([longDefFixLine l], false)
      | l2 :: rest2 =>
        if pyStartsWith l2 "#" then
          let r := longDefGoFuel fuel (l2 :: rest2)
          (longDefFixLine l :: r.1, r.2)
        else
          let r := longDefGoFuel fuel (("    " ++ l2) :: rest2)
          (longDefFixLine l :: r.1, true)
    else
      let r := longDefGoFuel fuel rest
      (l :: r.1, r.2)

/-- Lines 1800-1817: the modified line list is joined back only when
`issues_fixed` was set. -/
def longDefStep (c : String) : String × Bool :=
  let lines := pySplitlines c
  let r := longDefGoFuel lines.length lines
  (if r.2 then nlJoin r.1 else c, r.2)

/-- `re.match(r'^\s*#\s*<kw...>', line)` as a prefix test (the patterns
of lines 1830 and 1832 have no trailing `\b`). -/
def reMatchHashPrefixKw (kw : String) (line : String) : Bool :=
  match matchLit (dropWs line.toList) "#".toList with
  | none => false
  | some r => (matchLit (dropWs r) kw.toList).isSome

/-- `re.match(r'^\s*#\s*define\s+([a-zA-Z_][a-zA-Z0-9_]*)', line)`
(line 1836). -/
def reMatchDefineName (line : String) : Option String :=
  match matchLit (dropWs line.toList) "#".toList with
  | none => none
  | some r =>
    match matchLit (dropWs r) "define".toList with
    | none => none
    | some r2 =>
      match matchWsPlus r2 with
      | none => none
      | some r3 =>
        match takeIdentRun r3 with
        | none => none
        | some p => some p.1

/-- `re.search(r'#ifndef\s+' + re.escape(macro_name), guard_line)`
(line 1844): the literal name needs no trailing boundary. -/
def guardSearchName (name : String) : List Char → Bool
  | [] => false
  | c :: t =>
    (match matchLit (c :: t) "#ifndef".toList with
     | none => none
     | some r =>
       match matchWsPlus r with
       | none => none
       | some r2 => matchLit r2 name.toList).isSome
    || guardSearchName name t

/-- The macro-redefinition loop (lines 1828-1856).  `origLines` is the
line list for the guard-line lookup `lines[directive_stack[-1]]`: lines
on the directive stack match `^\s*#\s*if` and are never themselves
rewritten by the loop, so the original list is the correct source. -/
def redefGo (origLines : List String) :
    List String → Nat → List Nat → List String → List String → List String × Bool
  | [], _, _, _, _ => ([], false)
  | l :: rest, i, stack, defs, inGuard =>
    let stack' :=
      if reMatchHashPrefixKw "if" l then stack ++ [i]
      else if reMatchHashPrefixKw "endif" l && !stack.isEmpty then stack.dropLast
      else stack
    match reMatchDefineName l with
    | none =>
      let r := redefGo origLines rest (i + 1) stack' defs inGuard
      (l :: r.1, r.2)
    | some name =>
      let isGuarded :=
        match stack'.getLast? with
        | none => false
        | some g => guardSearchName name (origLines.getD g "").toList
      if isGuarded then
        let r := redefGo origLines rest (i + 1) stack' defs (name :: inGuard)
        (l :: r.1, r.2)
      else if inGuard.contains name then
        let r := redefGo origLines rest (i + 1) stack' defs inGuard
        (l :: r.1, r.2)
      else if defs.contains name then
        let r := redefGo origLines rest (i + 1) stack' defs inGuard
        (("/* Duplicate definition removed: " ++ l ++ " */") :: r.1, true)
      else
        let r := redefGo origLines rest (i + 1) stack' (defs ++ [name]) inGuard
        (l :: r.1, r.2)

/-- Lines 1819-1859: the (possibly rewritten) line list is joined back
whenever the running `issues_fixed` flag — including a flag set by the
preceding long-`#define` check — is set. -/
def redefStep (c : String) (globalFlag : Bool) : String × Bool :=
  let lines := pySplitlines c
  let r := redefGo lines lines 0 [] [] []
  ((if globalFlag || r.2 then nlJoin r.1 else c), globalFlag || r.2)

/-- Match of `#\s*<kw>\s+([a-zA-Z_][a-zA-Z0-9_]*)` at the head of the
list, returning the match length and the captured name. -/
def hashKwMatchAt (kw : String) (l : List Char) : Option (Nat × String) :=
  match matchLit l "#".toList with
  | none => none
  | some r1 =>
    match matchLit (dropWs r1) kw.toList with
    | none => none
    | some r3 =>
      match matchWsPlus r3 with
      | none => none
      | some r4 =>
        match takeIdentRun r4 with
        | none => none
        | some p => some (l.length - p.2.length, p.1)

/-- Leftmost non-overlapping matches with their start and end offsets
(`re.finditer`); a match consumes at least one character, so the text
length bounds the scan as fuel. -/
def findHashKwGo (kw : String) : Nat → Nat → List Char → List (Nat × Nat × String)
  | 0, _, _ => []
  | _, _, [] => []
  | fuel + 1, pos, c :: t =>
    match hashKwMatchAt kw (c :: t) with
    | some m => (pos, pos + m.1, m.2) :: findHashKwGo kw fuel (pos + m.1) ((c :: t).drop m.1)
    | none => findHashKwGo kw fuel (pos + 1) t

def findHashKwMatches (kw : String) (c : String) : List (Nat × Nat × String) :=
  findHashKwGo kw c.toList.length 0 c.toList

/-- The dangling-`#undef` check (lines 1861-1877).  The match offsets
were computed on the string as it was before the loop, but each splice
is applied to the current string — the embedding reproduces this stale
indexing exactly. -/
def undefStep (c : String) : String × Bool :=
  let defined := (findHashKwMatches "define" c).map fun m => m.2.2
  (findHashKwMatches "undef" c).foldl
    (fun acc m =>
      if defined.contains m.2.2 then acc
      else
        (pyTake acc.1 m.1 ++ "/* Commented out as no matching #define found: "
          ++ pyTake (pyDrop acc.1 m.1) (m.2.1 - m.1) ++ " */" ++ pyDrop acc.1 m.2.1,
         true))
    (c, false)

/-- `^\s*#\s*(if|ifdef|ifndef)\b` (line 1894): one of the three tokens
followed by a word boundary. -/
def dirOpenTok (l : List Char) : Bool :=
  match matchLit (dropWs l) "#".toList with
  | none => false
  | some r =>
    (match matchLit (dropWs r) "ifndef".toList with
     | some rest => isBoundaryAt rest
     | none => false)
    || (match matchLit (dropWs r) "ifdef".toList with
     | some rest => isBoundaryAt rest
     | none => false)
    || (match matchLit (dropWs r) "if".toList with
     | some rest => isBoundaryAt rest
     | none => false)

/-- `^\s*#\s*endif\b` (line 1898). -/
def dirCloseTok (l : List Char) : Bool :=
  match matchLit (dropWs l) "#".toList with
  | none => false
  | some r =>
    match matchLit (dropWs r) "endif".toList with
    | some rest => isBoundaryAt rest
    | none => false

/-- The directive-stack scan of the macro balance check (lines
1883-1902): comment lines are skipped, unmatched `#endif` line indices
and unclosed opener lines are collected. -/
def dirBalGo : List String → Nat → List (Nat × String) → List Nat →
    List (Nat × String) × List Nat
  | [], _, stack, unmatched => (stack, unmatched)
  | l :: rest, i, stack, unmatched =>
    if pyStartsWith (pyStrip l) "//" || pyStartsWith (pyStrip l) "/*" then
      dirBalGo rest (i + 1) stack unmatched
    else if dirOpenTok (pyStrip l).toList then
      dirBalGo rest (i + 1) (stack ++ [(i, pyStrip l)]) unmatched
    else if dirCloseTok (pyStrip l).toList then
      if stack.isEmpty then dirBalGo rest (i + 1) stack (unmatched ++ [i])
      else dirBalGo rest (i + 1) stack.dropLast unmatched
    else dirBalGo rest (i + 1) stack unmatched

/-- The macro directive-balance fix (lines 1879-1922): comment out the
extra `#endif` lines and append one `#endif` comment line per unclosed
opener. -/
def dirBalFix (c : String) : String × Bool :=
  let lines := pySplitlines c
  let r := dirBalGo lines 0 [] []
  if r.1.isEmpty && r.2.isEmpty then (c, false)
  else
    (nlJoin
      ((lines.enum.map fun p =>
          if r.2.contains p.1 then "/* Extra #endif removed: " ++ p.2 ++ " */"
          else p.2)
        ++ r.1.map fun q =>
          "#endif /* Auto-added to match " ++ q.2 ++ " at line "
            ++ Nat.repr (q.1 + 1) ++ " */"),
     true)

/-- `_check_for_macro_issues` (lines 1790-1947): the four rewriting
checks in order, returning the rewritten content only when some check
set `issues_fixed` (lines 1941-1944). -/
def macroIssuesFix (c : String) : String :=
  let r1 := longDefStep c
  let r2 := redefStep r1.1 r1.2
  let r3 := undefStep r2.1
  let r4 := dirBalFix r3.1
  if r2.2 || r3.2 || r4.2 then r4.1 else c

/-- `_check_for_common_issues` (lines 1615-1788): the rewritten content
and the returned `issues_found` flag.  Note that the malformed-enum
report patterns read the original `content` (lines 1754 and 1759) and
that the macro fixes never contribute to `issues_found`. -/
def commonIssuesFix (c : String) : String × Bool :=
  let r1 := untermFix c
  let r2 := braceStep r1.1
  let r3 := structEnumStep r2.1
  let r4 := malformedEnumStep c r3.1
  let r5 := windowsIncludeStep r4.1
  (macroIssuesFix r5.1, r1.2 || r2.2 || r3.2 || r4.2 || r5.2)

/-- The repair line of the count fix (line 1602). -/
def balanceRepairLine : String :=
  "\n#endif /* Auto-added to balance directives */\n"

/-- One file's pass of `_verify_output` (lines 1583-1611): the file's
final content and whether an issue was reported for it.  The
open/close counts are taken on the content as read; missing `#endif`
directives are appended to the file (lines 1599-1603); the common-issue
fix then rewrites the whole file — clobbering any appended lines —
exactly when its rewritten content differs from the content as read
(lines 1776-1779). -/
def verifyFileStep (c : String) : String × Bool :=
  (if (commonIssuesFix c).1 = c then
     if countEndif c.toList < countOpens c.toList then
       c ++ repeatAppend balanceRepairLine
         (countOpens c.toList - countEndif c.toList)
     else c
   else (commonIssuesFix c).1,
   decide (¬(countOpens c.toList = countEndif c.toList)) || (commonIssuesFix c).2)

/-- A file on which the pass reports no issue yet rewrites the content:
an over-long `#define` line whose second quote lies beyond column 79,
followed by a plain line. -/
def c8bad : String :=
  "#define LONGMACRO \x22" ++ repeatAppend "a" 61 ++ "\x22\nabc"

/-- A clean file: balanced directives, no quotes, braces, typedefs or
macros. -/
def c8clean : String :=
  "#ifdef A\nint x;\n#endif"

/-! ## File synthesis (`create_output_files`, lines 1187-1423,
`_create_common_header`, lines 1949-2000 — the second, effective
definition of that method — and `create_main_header`, lines 1506-1534)

The generated tree is embedded as an association list from file name to
content, updated in write order (later writes overwrite).  The
`includes` set of `_get_necessary_includes` is kept as a list in the
source dictionaries' insertion order: Python iterates a `set` whose
order is implementation-defined, and only membership is observable in
the theorems below (the include lines contain no text matched by the
directive counters). -/
def charUpper (c : Char) : Char :=
  if 'a' ≤ c && c ≤ 'z' then Char.ofNat (c.toNat - 32) else c

def pyUpper (s : String) : String :=
  String.mk (s.toList.map charUpper)

/-- `SOD_API_EXPORT_MACRO` (lines 98-115). -/
def SOD_API_EXPORT_MACRO : String :=
  "\n/* Define SOD API export macro if not already defined */\n#ifndef SOD_APIEXPORT\n#ifdef _WIN32\n  #ifdef SOD_STATIC\n    #define SOD_APIEXPORT \n  #else\n    #ifdef SOD_BUILD\n      #define SOD_APIEXPORT __declspec(dllexport)\n    #else\n      #define SOD_APIEXPORT __declspec(dllimport)\n    #endif\n  #endif\n#else\n  #define SOD_APIEXPORT\n#endif\n#endif /* SOD_APIEXPORT */\n"

/-- `REQUIRED_TYPEDEFS` (lines 118-128). -/
def REQUIRED_TYPEDEFS : String :=
  "\n/* Basic SOD data types */\ntypedef int sod_status;\n\n/* Function pointer types */\ntypedef void (*ProcRnnCallback)(void *, int, float);\ntypedef void (*ProcLogCallback)(void *, int, const char *);\ntypedef int (*ProcLayerLoad)(void *, const char *);\ntypedef int (*ProcLayerExec)(void *, int);\ntypedef void (*ProcLayerRelease)(void *);\n"

def standardIncludeText : String :=
  STANDARD_HEADERS.foldl (fun acc h => acc ++ "#include " ++ h ++ "\n") ""

/-- `sod_common.h` as written by `_create_common_header` (lines
1949-2000). -/
def commonHeaderText (enums macros : List Element) : String :=
  "\n/* \n * sod_common.h - Common definitions for the SOD library\n * Generated from the original monolithic code\n */\n\n#ifndef SOD_COMMON_H__\n#define SOD_COMMON_H__\n\n/* Standard includes */\n"
  ++ standardIncludeText
  ++ "\n" ++ SOD_API_EXPORT_MACRO ++ "\n"
  ++ "\n" ++ REQUIRED_TYPEDEFS ++ "\n"
  ++ "\n/* Required constants */\n"
  ++ REQUIRED_CONSTANTS.foldl (fun acc c =>
      match (macros.filter fun m => decide (m.name = c)).head? with
      | some m => acc ++ m.content ++ "\n"
      | none => acc) ""
  ++ "\n/* Forward declarations for common types */\n"
  ++ COMMON_TYPES.foldl (fun acc t =>
      acc ++ "typedef struct " ++ t ++ " " ++ t ++ ";\n") ""
  ++ "\n/* Common enumerations */\n"
  ++ enums.foldl (fun acc e =>
      if COMMON_ENUMS.contains e.name then acc ++ e.content ++ "\n\n" else acc) ""
  ++ "\n#endif /* SOD_COMMON_H__ */\n"

/-- Lexicographic insertion sort for `sorted(...)` over file keys. -/
def insertStr (s : String) : List String → List String
  | [] => [s]
  | x :: t => if s < x then s :: x :: t else x :: insertStr s t

def sortStrings (l : List String) : List String :=
  l.foldl (fun acc s => insertStr s acc) []

/-- `sod.h` as written by `create_main_header` (lines 1506-1534). -/
def mainHeaderText (components : List String) : String :=
  "\n/* \n * sod.h - Main header file for the SOD library\n * Generated from the original monolithic code\n */\n\n#ifndef SOD_H__\n#define SOD_H__\n\n/* Include all component headers */\n#include \x22sod/sod_common.h\x22\n"
  ++ (sortStrings components).foldl (fun acc comp =>
      if comp = "common" then acc
      else acc ++ "#include \x22sod/sod_" ++ comp ++ ".h\x22\n") ""
  ++ "\n#endif /* SOD_H__ */\n"

def lookupOF : OutputFiles → String → List Element
  | [], _ => []
  | (k, v) :: t, n => if k = n then v else lookupOF t n

/-- `_extract_module_definitions` (lines 1176-1185). -/
def extractModuleDefinitions (of : OutputFiles) (name : String) : String :=
  ((lookupOF of name).filter fun e => decide (e.etype = "enum")).foldl
    (fun acc e => acc ++ e.content ++ "\n\n") ""

/-- The `type_mappings` dictionary (lines 1106-1128). -/
def typeMappings : List (String × String) :=
  [("sod_cnn", "cnn"), ("sod_img", "img_utils"), ("sod_box", "box_utils"),
   ("box", "box_utils"), ("network", "nn_types"), ("layer", "nn_types"),
   ("tree", "nn_types"), ("ACTIVATION", "activation"),
   ("SOD_CNN_LAYER_TYPE", "nn_types"), ("learning_rate_policy", "nn_types"),
   ("COST_TYPE", "nn_types"), ("SyBlob", "data_structures"),
   ("SySet", "data_structures"), ("SyString", "data_structures"),
   ("sod_vfs", "vfs"), ("softmax_layer", "softmax_impl"),
   ("local_layer", "local_layer"), ("connected_layer", "connected_impl"),
   ("convolutional_layer", "convolutional"), ("cost_layer", "cost_layer"),
   ("route_layer", "route_layer")]

/-- The `function_prefixes` dictionary (lines 1131-1151). -/
def functionPrefixes : List (String × String) :=
  [("forward_softmax", "softmax_impl"), ("backward_softmax", "softmax_impl"),
   ("forward_batchnorm", "batchnorm_impl"), ("backward_batchnorm", "batchnorm_impl"),
   ("forward_connected", "connected_impl"), ("backward_connected", "connected_impl"),
   ("forward_convolutional", "convolutional"), ("backward_convolutional", "convolutional"),
   ("forward_cost", "cost_layer"), ("backward_cost", "cost_layer"),
   ("forward_local", "local_layer"), ("backward_local", "local_layer"),
   ("forward_route", "route_layer"), ("backward_route", "route_layer"),
   ("activate", "activation"), ("gradient", "activation"),
   ("SyBlob", "data_structures"), ("SySet", "data_structures"),
   ("SyString", "data_structures")]

def addInclude (l : List String) (s : String) : List String :=
  if l.contains s then l else l ++ [s]

/-- `_get_necessary_includes` (lines 1101-1174). -/
def includesOf (elements : List Element) : List String :=
  elements.foldl (fun acc elem =>
    let acc1 := typeMappings.foldl (fun a p =>
      if strContains elem.content p.1 && !(decide (p.2 = "common")) then addInclude a p.2
      else a) acc
    let acc2 := functionPrefixes.foldl (fun a p =>
      if strContains elem.content p.1 && !(decide (p.2 = "common")) then addInclude a p.2
      else a) acc1
    elem.deps.foldl (fun a dep =>
      typeMappings.foldl (fun a2 p =>
        if decide (dep = p.1) && !(decide (p.2 = "common")) then addInclude a2 p.2
        else a2) a) acc2)
    []

/-- The include block of a module implementation (lines 1331-1346). -/
def implIncludesText (fileKey : String) (elements : List Element) : String :=
  let inc0 := includesOf elements
  let inc1 :=
    if !inc0.contains "common" && !(decide (fileKey = "common")) then
      addInclude inc0 "common"
    else inc0
  let inc2 :=
    if ["cnn", "detection", "box_utils"].contains fileKey then addInclude inc1 "nn_types"
    else inc1
  let inc3 :=
    if ["activation", "dropout"].contains fileKey then addInclude inc2 "nn_types"
    else inc2
  inc3.foldl (fun acc i =>
    if i = fileKey then acc
    else acc ++ "#include \x22sod/sod_" ++ i ++ ".h\x22\n") ""

/-- `sod_<key>.h` as assembled by `create_output_files` (lines
1202-1315). -/
def moduleHeaderText (fileKey : String) (elements : List Element)
    (nnDefs actDefs : String) : String :=
  "\n/* \n * sod_" ++ fileKey
  ++ ".h - Part of the SOD library\n * Generated from the original monolithic code\n */\n\n#ifndef SOD_"
  ++ pyUpper fileKey ++ "_H__\n#define SOD_" ++ pyUpper fileKey
  ++ "_H__\n\n#include \x22sod/sod_common.h\x22\n\n"
  ++ (if fileKey = "nn_types" && !(decide (nnDefs = "")) then nnDefs ++ "\n\n"
      else if fileKey = "activation" && !(decide (actDefs = "")) then actDefs ++ "\n\n"
      else "")
  ++ (sortByStart (moduleHeaderElements fileKey elements)).foldl
      (fun acc e => acc ++ e.content ++ "\n\n") ""
  ++ "\n#endif /* SOD_" ++ pyUpper fileKey ++ "_H__ */\n"

/-- `sod_<key>.c` as assembled by `create_output_files` (lines
1318-1414). -/
def moduleImplText (fileKey : String) (elements : List Element) : String :=
  "\n/* \n * sod_" ++ fileKey
  ++ ".c - Part of the SOD library\n * Generated from the original monolithic code\n */\n\n"
  ++ standardIncludeText
  ++ "\n#include \x22sod_" ++ fileKey ++ ".h\x22\n"
  ++ implIncludesText fileKey elements
  ++ "\n"
  ++ (if fileKey = "common" then "#ifndef OS_OTHER\n#define OS_OTHER\n#endif\n\n" else "")
  ++ (sortByStart (moduleImplElements fileKey elements)).foldl
      (fun acc e => acc ++ emissionClean e ++ "\n\n") ""

/-- Write (or overwrite) one file of the generated tree. -/
def setFile : List (String × String) → String → String → List (String × String)
  | [], k, v => [(k, v)]
  | (k0, v0) :: t, k, v =>
    if k0 = k then (k0, v) :: t else (k0, v0) :: setFile t k v

def lookupFile : List (String × String) → String → Option String
  | [], _ => none
  | (k0, v0) :: t, k => if k0 = k then some v0 else lookupFile t k

/-- The generated tree after `create_output_files` and
`create_main_header`: the common header is written first (line 1194),
then each component's `.c` and `.h` (the module header for `common`
overwrites the common header), then `sod.h`. -/
def synthFiles (of : OutputFiles) (enums macros : List Element) :
    List (String × String) :=
  let files0 := setFile [] "sod_common.h" (commonHeaderText enums macros)
  let nnDefs := extractModuleDefinitions of "nn_types"
  let actDefs := extractModuleDefinitions of "activation"
  let files1 := of.foldl (fun fs p =>
    setFile (setFile fs ("sod_" ++ p.1 ++ ".c") (moduleImplText p.1 p.2))
      ("sod_" ++ p.1 ++ ".h") (moduleHeaderText p.1 p.2 nnDefs actDefs)) files0
  setFile files1 "sod.h" (mainHeaderText (of.map Prod.fst))

/-- One `_verify_output` pass (lines 1579-1611) over the generated
tree: for each component key, the `.c` file then the `.h` file. -/
def verifyPassFiles (keys : List String) (files : List (String × String)) :
    List (String × String) :=
  keys.foldl (fun fs key =>
    let fs1 :=
      match lookupFile fs ("sod_" ++ key ++ ".c") with
      | some content => setFile fs ("sod_" ++ key ++ ".c") (verifyFileStep content).1
      | none => fs
    match lookupFile fs1 ("sod_" ++ key ++ ".h") with
    | some content => setFile fs1 ("sod_" ++ key ++ ".h") (verifyFileStep content).1
    | none => fs1) files

def totalOpens (files : List (String × String)) : Nat :=
  files.foldl (fun acc p => acc + countOpens p.2.toList) 0

def totalEndifs (files : List (String × String)) : Nat :=
  files.foldl (fun acc p => acc + countEndif p.2.toList) 0

/-! ## C5: directive balance of the generated tree -/
/-- A balanced two-conditional input: the extractor's context lines
duplicate the adjacent directives into both elements. -/
def c5input : String :=
  "#ifdef A\nx\n#endif\n#ifdef B\ny\n#endif"

def c5conds : List Element :=
  (extractConditionals c5input).1

/-- The component map of the run: no other element kinds extract from
`c5input`, and the run's symbol map stays empty. -/
def c5of : OutputFiles :=
  mapSymbolsToComponents [] [] [] [] [] [] c5conds []

/-- The generated tree after synthesis and the two verification passes
(`extract_and_process` line 1561 and `main` line 2032). -/
def c5files : List (String × String) :=
  verifyPassFiles (c5of.map Prod.fst)
    (verifyPassFiles (c5of.map Prod.fst) (synthFiles c5of [] []))

/-- A file content whose repair the count-fix alone performs: one
opener counted by the textual scan but not anchored at a line start, so
the common-issue checks leave the content unchanged. -/
def c5w : String := "x #ifdef A"

/-! ## Theorems -/

theorem scanChain_rem_length_le :
    ∀ (rest : List (Nat × String)) (stack : Nat) (acc bl : List (Nat × String))
      (el : Nat) (rem : List (Nat × String)),
      scanChain rest stack acc = some (bl, el, rem) → rem.length ≤ rest.length := by
  intro rest
  induction rest with
  | nil =>
    intro stack acc bl el rem h
    exact absurd h (by simp [scanChain])
  | cons p t ih =>
    intro stack acc bl el rem h
    obtain ⟨ln, d⟩ := p
    simp only [scanChain] at h
    by_cases h0 : scanStep d stack = 0
    · rw [if_pos h0] at h
      simp only [Option.some.injEq, Prod.mk.injEq] at h
      obtain ⟨-, -, h3⟩ := h
      subst h3
      simp only [List.length_cons]
      omega
    · rw [if_neg h0] at h
      refine (ih _ _ bl el rem h).trans ?_
      simp only [List.length_cons]
      omega

theorem extractCondLoopAux_fuel_irrel (lines : List String) (fullLen : Nat) :
    ∀ (fuel fuel' : Nat) (ds : List (Nat × String)),
      ds.length ≤ fuel → ds.length ≤ fuel' →
      extractCondLoopAux lines fullLen fuel ds
        = extractCondLoopAux lines fullLen fuel' ds := by
  intro fuel
  induction fuel with
  | zero =>
    intro fuel' ds h h'
    have : ds = [] := List.length_eq_zero.mp (Nat.le_zero.mp h)
    subst this
    cases fuel' <;> rfl
  | succ fuel ih =>
    intro fuel' ds h h'
    cases ds with
    | nil => cases fuel' <;> rfl
    | cons p rest =>
      obtain ⟨ln, d⟩ := p
      cases fuel' with
      | zero => exact absurd h' (by simp)
      | succ fuel' =>
        simp only [extractCondLoopAux]
        by_cases ha : pyStartsWith d "#if" = true
        · rw [if_pos ha, if_pos ha]
          cases hscan : scanChain rest 1 [(ln, d)] with
          | some v =>
            obtain ⟨blockLines, endLine, remaining⟩ := v
            have hlen : remaining.length ≤ rest.length :=
              scanChain_rem_length_le _ _ _ _ _ _ hscan
            simp only [List.length_cons] at h h'
            dsimp only
            rw [ih fuel' remaining (by omega) (by omega)]
          | none => rfl
        · rw [if_neg ha, if_neg ha]
          simp only [List.length_cons] at h h'
          exact ih fuel' rest (by omega) (by omega)

/-! ## Lemmas connecting the scan to the independent depth specification -/
theorem pyStartsWith_mono {s p q : String} (hpq : p.toList <+: q.toList)
    (h : pyStartsWith s q = true) : pyStartsWith s p = true := by
  unfold pyStartsWith at *
  rw [List.isPrefixOf_iff_prefix] at h ⊢
  exact hpq.trans h

/-- `#ifdef`/`#ifndef` both start with `#if`, so the three-way opening
test of the scan collapses to its first disjunct. -/
theorem scanStep_eq (d : String) (stack : Nat) :
    scanStep d stack =
      if pyStartsWith d "#if" then stack + 1
      else if pyStartsWith d "#endif" then stack - 1
      else stack := by
  unfold scanStep
  by_cases h : pyStartsWith d "#if" = true
  · simp [h]
  · have hb : pyStartsWith d "#ifdef" = false := by
      cases hx : pyStartsWith d "#ifdef"
      · rfl
      · exact absurd (pyStartsWith_mono (p := "#if") (q := "#ifdef") (by decide) hx)
          (by simp [h])
    have hc : pyStartsWith d "#ifndef" = false := by
      cases hx : pyStartsWith d "#ifndef"
      · rfl
      · exact absurd (pyStartsWith_mono (p := "#if") (q := "#ifndef") (by decide) hx)
          (by simp [h])
    simp [h, hb, hc]

theorem scanChain_some_clampedDepth :
    ∀ (rest : List (Nat × String)) (stack : Nat) (acc bl : List (Nat × String))
      (el : Nat) (rem : List (Nat × String)), 0 < stack →
      scanChain rest stack acc = some (bl, el, rem) →
      clampedDepth rest stack = clampedDepth rem 0 := by
  intro rest
  induction rest with
  | nil =>
    intro stack acc bl el rem hs h
    exact absurd h (by simp [scanChain])
  | cons p t ih =>
    intro stack acc bl el rem hs h
    obtain ⟨ln, d⟩ := p
    simp only [scanChain] at h
    rw [scanStep_eq] at h
    simp only [clampedDepth]
    by_cases ha : pyStartsWith d "#if" = true
    · rw [if_pos ha] at h
      rw [if_neg (Nat.succ_ne_zero stack)] at h
      rw [if_pos ha]
      exact ih (stack + 1) _ bl el rem (Nat.succ_pos _) h
    · rw [if_neg ha] at h
      rw [if_neg ha]
      by_cases he : pyStartsWith d "#endif" = true
      · rw [if_pos he] at h
        rw [he]
        have hcond : (true && decide (0 < stack)) = true := by simp [hs]
        rw [if_pos hcond]
        by_cases h1 : stack = 1
        · subst h1
          rw [if_pos (show 1 - 1 = 0 from rfl)] at h
          simp only [Option.some.injEq, Prod.mk.injEq] at h
          obtain ⟨-, -, h3⟩ := h
          subst h3
          rfl
        · have hpos : 0 < stack - 1 := by omega
          rw [if_neg (by omega : ¬stack - 1 = 0)] at h
          exact ih (stack - 1) _ bl el rem hpos h
      · rw [if_neg he] at h
        rw [if_neg (by omega : ¬stack = 0)] at h
        have hcond : (pyStartsWith d "#endif" && decide (0 < stack)) = false := by
          simp [he]
        rw [hcond, if_neg Bool.false_ne_true]
        exact ih stack _ bl el rem hs h

theorem scanChain_none_clampedDepth :
    ∀ (rest : List (Nat × String)) (stack : Nat) (acc : List (Nat × String)),
      0 < stack → scanChain rest stack acc = none →
      0 < clampedDepth rest stack := by
  intro rest
  induction rest with
  | nil =>
    intro stack acc hs h
    simpa [clampedDepth] using hs
  | cons p t ih =>
    intro stack acc hs h
    obtain ⟨ln, d⟩ := p
    simp only [scanChain] at h
    rw [scanStep_eq] at h
    simp only [clampedDepth]
    by_cases ha : pyStartsWith d "#if" = true
    · rw [if_pos ha] at h
      rw [if_neg (Nat.succ_ne_zero stack)] at h
      rw [if_pos ha]
      exact ih (stack + 1) _ (Nat.succ_pos _) h
    · rw [if_neg ha] at h
      rw [if_neg ha]
      by_cases he : pyStartsWith d "#endif" = true
      · rw [if_pos he] at h
        rw [he]
        have hcond : (true && decide (0 < stack)) = true := by simp [hs]
        rw [if_pos hcond]
        by_cases h1 : stack = 1
        · subst h1
          rw [if_pos (show 1 - 1 = 0 from rfl)] at h
          exact absurd h (by simp)
        · have hpos : 0 < stack - 1 := by omega
          rw [if_neg (by omega : ¬stack - 1 = 0)] at h
          exact ih (stack - 1) _ hpos h
      · rw [if_neg he] at h
        rw [if_neg (by omega : ¬stack = 0)] at h
        have hcond : (pyStartsWith d "#endif" && decide (0 < stack)) = false := by
          simp [he]
        rw [hcond, if_neg Bool.false_ne_true]
        exact ih stack _ hs h

theorem getLast?_cons_ne_nil {α : Type} (x : α) {l : List α} (h : l ≠ []) :
    (x :: l).getLast? = l.getLast? := by
  cases l with
  | nil => exact absurd rfl h
  | cons a t => exact List.getLast?_cons_cons

/-- At depth zero a non-opening directive leaves `clampedDepth`
unchanged. -/
theorem clampedDepth_cons_not_open {ln : Nat} {d : String}
    (ha : ¬pyStartsWith d "#if" = true) (rest : List (Nat × String)) :
    clampedDepth ((ln, d) :: rest) 0 = clampedDepth rest 0 := by
  simp only [clampedDepth]
  rw [if_neg ha]
  have : (pyStartsWith d "#endif" && decide (0 < 0)) = false := by simp
  rw [this, if_neg Bool.false_ne_true]

/-- Loop-level statement behind C6: an unterminated directive stream
yields exactly one warning and ends with the repaired element. -/
theorem extractCondLoopAux_unterminated (lines : List String) (fullLen : Nat) :
    ∀ (fuel : Nat) (ds : List (Nat × String)), ds.length ≤ fuel →
      0 < clampedDepth ds 0 →
      (extractCondLoopAux lines fullLen fuel ds).2 = 1 ∧
      ∃ sl e, (extractCondLoopAux lines fullLen fuel ds).1.getLast? = some e ∧
        e.name = "conditional_fixed" ∧
        e.content = nlJoin (lines.drop sl) ++ unterminatedFixText := by
  intro fuel
  induction fuel with
  | zero =>
    intro ds hlen h
    have : ds = [] := List.length_eq_zero.mp (Nat.le_zero.mp hlen)
    subst this
    exact absurd h (by simp [clampedDepth])
  | succ fuel ih =>
    intro ds hlen h
    cases ds with
    | nil => exact absurd h (by simp [clampedDepth])
    | cons p rest =>
      obtain ⟨ln, d⟩ := p
      simp only [List.length_cons] at hlen
      by_cases ha : pyStartsWith d "#if" = true
      · cases hscan : scanChain rest 1 [(ln, d)] with
        | some v =>
          obtain ⟨blockLines, endLine, remaining⟩ := v
          have hrem : remaining.length ≤ fuel :=
            (scanChain_rem_length_le _ _ _ _ _ _ hscan).trans (by omega)
          have hdep : 0 < clampedDepth remaining 0 := by
            have h0 : clampedDepth ((ln, d) :: rest) 0 = clampedDepth rest 1 := by
              simp only [clampedDepth, ha, if_pos]
            have h1 := scanChain_some_clampedDepth rest 1 [(ln, d)] blockLines
              endLine remaining Nat.one_pos hscan
            rw [h0, h1] at h
            exact h
          obtain ⟨hw, sl, e, hl, hn, hc⟩ := ih remaining hrem hdep
          simp only [extractCondLoopAux, ha, if_pos, hscan]
          refine ⟨hw, sl, e, ?_, hn, hc⟩
          have hne : (extractCondLoopAux lines fullLen fuel remaining).1 ≠ [] := by
            intro hnil
            rw [hnil] at hl
            exact absurd hl (by simp)
          rw [getLast?_cons_ne_nil _ hne]
          exact hl
        | none =>
          refine ⟨?_, ln, mkFixedElement lines ln fullLen, ?_, rfl, rfl⟩
          · simp only [extractCondLoopAux, ha, if_pos, hscan]
          · simp only [extractCondLoopAux, ha, if_pos, hscan]
            rfl
      · rw [clampedDepth_cons_not_open ha rest] at h
        simp only [extractCondLoopAux]
        rw [if_neg ha]
        exact ih rest (by omega) h

/-- C6: if the input's directive stream reaches end of file with an
unclosed `#if`/`#ifdef`/`#ifndef` (its nesting depth, `clampedDepth`,
never returns to zero), extraction emits exactly one warning and its
last extracted element is a Conditional named `conditional_fixed` whose
content is the remaining source text (from the opening line to end of
file) with one synthetic `#endif` comment line appended; extraction is a
total function, so the run continues rather than failing. -/
theorem C6_unterminated_conditional (src : String)
    (h : 0 < clampedDepth (directiveLines (pySplitlines src)) 0) :
    (extractConditionals src).2 = 1 ∧
    ∃ sl e, (extractConditionals src).1.getLast? = some e ∧
      e.name = "conditional_fixed" ∧
      e.content = nlJoin ((pySplitlines src).drop sl) ++ unterminatedFixText :=
  extractCondLoopAux_unterminated (pySplitlines src) src.toList.length
    (directiveLines (pySplitlines src)).length (directiveLines (pySplitlines src))
    (Nat.le_refl _) h

/-- Witness for `C6_unterminated_conditional`: a file ending inside an
unclosed `#ifdef A`. -/
theorem C6_unterminated_conditional_witness :
    (extractConditionals "int q;\n#ifdef A\nint x;").2 = 1 ∧
    ∃ sl e,
      (extractConditionals "int q;\n#ifdef A\nint x;").1.getLast? = some e ∧
      e.name = "conditional_fixed" ∧
      e.content = nlJoin ((pySplitlines "int q;\n#ifdef A\nint x;").drop sl)
        ++ unterminatedFixText :=
  C6_unterminated_conditional "int q;\n#ifdef A\nint x;" (by decide)

/-! ## The grouping loops assign every conditional to exactly one group -/
theorem memAnyGroup_iff (A : List (List Element)) (e : Element) :
    memAnyGroup A e = true ↔ e ∈ A.flatten := by
  unfold memAnyGroup
  simp [List.any_eq_true, List.mem_flatten]

theorem addOthersLoop_count (A : List (List Element)) (c : Element) :
    ∀ (others g : List Element),
      (∀ y : Element, A.flatten.count y + g.count y ≤ 1) →
      (∀ y : Element,
        A.flatten.count y + (addOthersLoop A c g others).count y ≤ 1) ∧
      (∀ y : Element, g.count y ≤ (addOthersLoop A c g others).count y) ∧
      (∀ y : Element, y ∉ others →
        (addOthersLoop A c g others).count y = g.count y) := by
  intro others
  induction others with
  | nil =>
    intro g h
    exact ⟨h, fun y => Nat.le_refl _, fun y _ => rfl⟩
  | cons o rest ih =>
    intro g h
    simp only [addOthersLoop]
    by_cases h1 : (decide (o = c) || memAnyGroup (A ++ [g]) o) = true
    · rw [if_pos h1]
      obtain ⟨a, b, c'⟩ := ih g h
      exact ⟨a, b, fun y hy => c' y (fun hm => hy (List.mem_cons_of_mem _ hm))⟩
    · rw [if_neg h1]
      by_cases h2 : (natDist c.start o.start < 1000
          && areConditionsSimilar (firstLineOf c.content) (firstLineOf o.content)) = true
      · rw [if_pos h2]
        have ho : A.flatten.count o = 0 ∧ g.count o = 0 := by
          simp only [Bool.or_eq_true, decide_eq_true_eq, not_or] at h1
          have hno : ¬memAnyGroup (A ++ [g]) o = true := h1.2
          rw [memAnyGroup_iff, List.flatten_append] at hno
          simp only [List.flatten, List.flatten_nil, List.append_nil,
            List.mem_append, not_or] at hno
          exact ⟨List.count_eq_zero.mpr hno.1, List.count_eq_zero.mpr hno.2⟩
        have hnew : ∀ y : Element, A.flatten.count y + (g ++ [o]).count y ≤ 1 := by
          intro y
          rw [List.count_append, List.count_singleton]
          by_cases hyo : o = y
          · subst hyo
            rw [ho.1, ho.2]
            simp
          · have : (o == y) = false := by
              simp [hyo]
            rw [this]
            simpa using h y
        obtain ⟨a, b, c'⟩ := ih (g ++ [o]) hnew
        refine ⟨a, ?_, ?_⟩
        · intro y
          refine Nat.le_trans ?_ (b y)
          rw [List.count_append]
          omega
        · intro y hy
          have hrec := c' y (fun hm => hy (List.mem_cons_of_mem _ hm))
          rw [hrec, List.count_append, List.count_singleton]
          have : (o == y) = false := by
            have : o ≠ y := by
              intro he
              exact hy (he ▸ List.mem_cons_self o rest)
            simp [this]
          rw [this]
          simp
      · rw [if_neg h2]
        obtain ⟨a, b, c'⟩ := ih g h
        exact ⟨a, b, fun y hy => c' y (fun hm => hy (List.mem_cons_of_mem _ hm))⟩

theorem groupPlainLoop_count (nameList : List Element) :
    ∀ (p : List Element) (A : List (List Element)),
      (∀ y : Element, A.flatten.count y ≤ 1) →
      (∀ x ∈ nameList, x ∈ p ∨ 1 ≤ A.flatten.count x) →
      (∀ x ∈ p, x ∈ nameList) →
      (∀ x ∈ nameList, (groupPlainLoop A nameList p).flatten.count x = 1) ∧
      (∀ y : Element, y ∉ nameList →
        (groupPlainLoop A nameList p).flatten.count y = A.flatten.count y) ∧
      (∀ y : Element, (groupPlainLoop A nameList p).flatten.count y ≤ 1) := by
  intro p
  induction p with
  | nil =>
    intro A hglob hcover hsub
    refine ⟨fun x hx => ?_, fun y _ => rfl, hglob⟩
    rcases hcover x hx with h | h
    · exact absurd h (List.not_mem_nil x)
    · exact Nat.le_antisymm (hglob x) h
  | cons cHead rest ih =>
    intro A hglob hcover hsub
    simp only [groupPlainLoop]
    by_cases hm : memAnyGroup A cHead = true
    · rw [if_pos hm]
      refine ih A hglob (fun x hx => ?_) (fun x hx => hsub x (List.mem_cons_of_mem _ hx))
      rcases hcover x hx with h | h
      · rcases List.mem_cons.mp h with h' | h'
        · subst h'
          right
          have : x ∈ A.flatten := (memAnyGroup_iff A x).mp hm
          exact Nat.one_le_iff_ne_zero.mpr (fun hz => (List.count_eq_zero.mp hz) this)
        · exact Or.inl h'
      · exact Or.inr h
    · rw [if_neg hm]
      have hc0 : A.flatten.count cHead = 0 := by
        rw [List.count_eq_zero]
        intro hmem
        exact hm ((memAnyGroup_iff A cHead).mpr hmem)
      have hpre : ∀ y : Element, A.flatten.count y + ([cHead] : List Element).count y ≤ 1 := by
        intro y
        rw [List.count_singleton]
        by_cases hyc : cHead = y
        · subst hyc
          rw [hc0]
          simp
        · have : (cHead == y) = false := by simp [hyc]
          rw [this]
          simpa using hglob y
      obtain ⟨ha, hb, hc'⟩ := addOthersLoop_count A cHead nameList [cHead] hpre
      set g := addOthersLoop A cHead [cHead] nameList with hg
      have hcount' : ∀ y : Element,
          (A ++ [g]).flatten.count y = A.flatten.count y + g.count y := by
        intro y
        rw [List.flatten_append]
        simp only [List.flatten, List.flatten_nil, List.append_nil]
        rw [List.count_append]
      have hglob' : ∀ y : Element, (A ++ [g]).flatten.count y ≤ 1 := by
        intro y
        rw [hcount' y]
        exact ha y
      have hcover' : ∀ x ∈ nameList, x ∈ rest ∨ 1 ≤ (A ++ [g]).flatten.count x := by
        intro x hx
        rcases hcover x hx with h | h
        · rcases List.mem_cons.mp h with h' | h'
          · subst h'
            right
            rw [hcount' x]
            have h1 : ([x] : List Element).count x ≤ g.count x := hb x
            rw [List.count_singleton] at h1
            simp only [beq_self_eq_true, if_true] at h1
            omega
          · exact Or.inl h'
        · right
          rw [hcount' x]
          omega
      obtain ⟨r1, r2, r3⟩ := ih (A ++ [g]) hglob' hcover'
        (fun x hx => hsub x (List.mem_cons_of_mem _ hx))
      refine ⟨r1, ?_, r3⟩
      intro y hy
      rw [r2 y hy, hcount' y]
      have hgy : g.count y = 0 := by
        rw [hc' y hy, List.count_singleton]
        have hne : cHead ≠ y := fun he => hy (he ▸ hsub cHead (List.mem_cons_self _ _))
        simp [hne]
      omega

theorem addToNameGroups_count (c : Element) :
    ∀ (acc : List (String × List Element)) (y : Element),
      (flattenSnd (addToNameGroups acc c)).count y
        = (flattenSnd acc).count y + ([c] : List Element).count y := by
  intro acc
  induction acc with
  | nil =>
    intro y
    simp [addToNameGroups, flattenSnd]
  | cons p t ih =>
    intro y
    obtain ⟨n, l⟩ := p
    simp only [addToNameGroups]
    by_cases hn : n = c.name
    · rw [if_pos hn]
      simp only [flattenSnd, List.map_cons, List.flatten_cons]
      rw [List.count_append, List.count_append, List.count_append]
      omega
    · rw [if_neg hn]
      simp only [flattenSnd, List.map_cons, List.flatten_cons]
      rw [List.count_append, List.count_append]
      have := ih y
      simp only [flattenSnd] at this
      omega

theorem nameGroups_foldl_count (y : Element) :
    ∀ (conds : List Element) (acc : List (String × List Element)),
      (flattenSnd (conds.foldl addToNameGroups acc)).count y
        = (flattenSnd acc).count y + conds.count y := by
  intro conds
  induction conds with
  | nil => intro acc; simp
  | cons c t ih =>
    intro acc
    simp only [List.foldl_cons]
    rw [ih (addToNameGroups acc c), addToNameGroups_count c acc y]
    simp only [List.count_cons, List.count_nil]
    omega

theorem nameGroups_count (conds : List Element) (y : Element) :
    (flattenSnd (nameGroupsOf conds)).count y = conds.count y := by
  unfold nameGroupsOf
  rw [nameGroups_foldl_count y conds []]
  simp [flattenSnd]

theorem addToNameGroups_namesOk {acc : List (String × List Element)} (c : Element)
    (h : bucketNamesOk acc) : bucketNamesOk (addToNameGroups acc c) := by
  induction acc with
  | nil =>
    intro p hp x hx
    simp only [addToNameGroups, List.mem_singleton] at hp
    subst hp
    simp only [List.mem_singleton] at hx
    subst hx
    rfl
  | cons q t ih =>
    obtain ⟨n, l⟩ := q
    simp only [addToNameGroups]
    by_cases hn : n = c.name
    · rw [if_pos hn]
      intro p hp x hx
      rcases List.mem_cons.mp hp with h' | h'
      · subst h'
        rcases List.mem_append.mp hx with h'' | h''
        · exact h (n, l) (List.mem_cons_self _ _) x h''
        · simp only [List.mem_singleton] at h''
          subst h''
          exact hn.symm
      · exact h p (List.mem_cons_of_mem _ h') x hx
    · rw [if_neg hn]
      intro p hp x hx
      rcases List.mem_cons.mp hp with h' | h'
      · subst h'
        exact h (n, l) (List.mem_cons_self _ _) x hx
      · exact ih (fun q hq => h q (List.mem_cons_of_mem _ hq)) p h' x hx

theorem nameGroups_namesOk (conds : List Element) :
    bucketNamesOk (nameGroupsOf conds) := by
  unfold nameGroupsOf
  have h : ∀ (cs : List Element) (acc : List (String × List Element)),
      bucketNamesOk acc → bucketNamesOk (cs.foldl addToNameGroups acc) := by
    intro cs
    induction cs with
    | nil => intro acc h; exact h
    | cons c t ih =>
      intro acc h
      exact ih _ (addToNameGroups_namesOk c h)
  exact h conds [] (fun p hp => absurd hp (List.not_mem_nil p))

theorem addToNameGroups_keys (c : Element) :
    ∀ acc : List (String × List Element),
      bucketKeys (addToNameGroups acc c)
        = if c.name ∈ bucketKeys acc then bucketKeys acc
          else bucketKeys acc ++ [c.name] := by
  intro acc
  induction acc with
  | nil => simp [addToNameGroups, bucketKeys]
  | cons q t ih =>
    obtain ⟨n, l⟩ := q
    simp only [addToNameGroups]
    by_cases hn : n = c.name
    · rw [if_pos hn]
      have hmem : c.name ∈ bucketKeys ((n, l) :: t) :=
        List.mem_cons.mpr (Or.inl hn.symm)
      rw [if_pos hmem]
      rfl
    · rw [if_neg hn]
      have hkeyscons : bucketKeys ((n, l) :: addToNameGroups t c)
          = n :: bucketKeys (addToNameGroups t c) := rfl
      have hkeyscons2 : bucketKeys ((n, l) :: t) = n :: bucketKeys t := rfl
      rw [hkeyscons, ih, hkeyscons2]
      by_cases hc : c.name ∈ bucketKeys t
      · rw [if_pos hc, if_pos (List.mem_cons_of_mem _ hc)]
      · have hnc : ¬c.name ∈ (n :: bucketKeys t) := by
          simp only [List.mem_cons, not_or]
          exact ⟨fun he => hn he.symm, hc⟩
        rw [if_neg hc, if_neg hnc]
        rfl

theorem nameGroups_keys_nodup (conds : List Element) :
    (bucketKeys (nameGroupsOf conds)).Nodup := by
  unfold nameGroupsOf
  have h : ∀ (cs : List Element) (acc : List (String × List Element)),
      (bucketKeys acc).Nodup → (bucketKeys (cs.foldl addToNameGroups acc)).Nodup := by
    intro cs
    induction cs with
    | nil => intro acc h; exact h
    | cons c t ih =>
      intro acc h
      refine ih _ ?_
      rw [addToNameGroups_keys]
      by_cases hc : c.name ∈ bucketKeys acc
      · rw [if_pos hc]; exact h
      · rw [if_neg hc]
        simp [List.nodup_append, h, hc]
  exact h conds [] (by simp [bucketKeys])

theorem count_le_flattenSnd :
    ∀ (ngs : List (String × List Element)) (p : String × List Element),
      p ∈ ngs → ∀ y : Element, p.2.count y ≤ (flattenSnd ngs).count y := by
  intro ngs
  induction ngs with
  | nil => intro p hp; exact absurd hp (List.not_mem_nil p)
  | cons q t ih =>
    intro p hp y
    simp only [flattenSnd, List.map_cons, List.flatten_cons, List.count_append]
    rcases List.mem_cons.mp hp with h | h
    · subst h; omega
    · have := ih p h y
      simp only [flattenSnd] at this
      omega

/-- The bucket-processing fold of `_group_related_conditionals` adds each
bucket's elements exactly once to the group pool. -/
theorem bucketFold_count :
    ∀ (bs : List (String × List Element)) (A : List (List Element)),
      bucketNamesOk bs →
      (bucketKeys bs).Nodup →
      (∀ p ∈ bs, ∀ y : Element, p.2.count y ≤ 1) →
      (∀ p ∈ bs, ∀ x ∈ p.2, A.flatten.count x = 0) →
      (∀ y : Element, A.flatten.count y ≤ 1) →
      ∀ y : Element,
        ((bs.foldl (fun allGroups p =>
            if pyStartsWith p.1 "multipart_conditional_" then allGroups ++ [p.2]
            else groupPlainLoop allGroups p.2 p.2) A).flatten.count y)
          = A.flatten.count y + (flattenSnd bs).count y := by
  intro bs
  induction bs with
  | nil =>
    intro A _ _ _ _ _ y
    simp [flattenSnd]
  | cons b t ih =>
    intro A hnames hkeys hbnd hdisj hglob y
    obtain ⟨n, l⟩ := b
    simp only [List.foldl_cons]
    have hnameslt : bucketNamesOk t := fun p hp => hnames p (List.mem_cons_of_mem _ hp)
    have hkeyst : (bucketKeys t).Nodup := by
      simp only [bucketKeys, List.map_cons] at hkeys
      exact hkeys.of_cons
    have hnotint : ∀ p ∈ t, (p.1 : String) ≠ n := by
      intro p hp he
      simp only [bucketKeys, List.map_cons, List.nodup_cons] at hkeys
      exact hkeys.1 (he ▸ List.mem_map_of_mem Prod.fst hp)
    have hbndt : ∀ p ∈ t, ∀ y : Element, p.2.count y ≤ 1 :=
      fun p hp => hbnd p (List.mem_cons_of_mem _ hp)
    have hlname : ∀ x ∈ l, x.name = n := hnames (n, l) (List.mem_cons_self _ _)
    have hxnotl : ∀ p ∈ t, ∀ x ∈ p.2, x ∉ l := by
      intro p hp x hx hxl
      exact hnotint p hp ((hnames p (List.mem_cons_of_mem _ hp) x hx) ▸ hlname x hxl)
    have hfs : (flattenSnd ((n, l) :: t)).count y = l.count y + (flattenSnd t).count y := by
      simp only [flattenSnd, List.map_cons, List.flatten_cons, List.count_append]
    by_cases hmp : pyStartsWith n "multipart_conditional_" = true
    · rw [if_pos hmp]
      have hcount : ∀ z : Element,
          (A ++ [l]).flatten.count z = A.flatten.count z + l.count z := by
        intro z
        rw [List.flatten_append]
        simp only [List.flatten, List.flatten_nil, List.append_nil]
        rw [List.count_append]
      have hdisj' : ∀ p ∈ t, ∀ x ∈ p.2, (A ++ [l]).flatten.count x = 0 := by
        intro p hp x hx
        rw [hcount x, hdisj p (List.mem_cons_of_mem _ hp) x hx,
          List.count_eq_zero.mpr (hxnotl p hp x hx)]
      have hglob' : ∀ z : Element, (A ++ [l]).flatten.count z ≤ 1 := by
        intro z
        rw [hcount z]
        by_cases hz : z ∈ l
        · rw [hdisj (n, l) (List.mem_cons_self _ _) z hz]
          simpa using hbnd (n, l) (List.mem_cons_self _ _) z
        · rw [List.count_eq_zero.mpr hz]
          simpa using hglob z
      rw [ih (A ++ [l]) hnameslt hkeyst hbndt hdisj' hglob' y, hcount y, hfs]
      omega
    · rw [if_neg hmp]
      obtain ⟨r1, r2, r3⟩ := groupPlainLoop_count l l A hglob
        (fun x hx => Or.inl hx) (fun x hx => hx)
      have hcount : ∀ z : Element,
          (groupPlainLoop A l l).flatten.count z = A.flatten.count z + l.count z := by
        intro z
        by_cases hz : z ∈ l
        · rw [r1 z hz, hdisj (n, l) (List.mem_cons_self _ _) z hz]
          have h1 : l.count z ≠ 0 := fun h0 => (List.count_eq_zero.mp h0) hz
          have h2 : l.count z ≤ 1 := hbnd (n, l) (List.mem_cons_self _ _) z
          omega
        · rw [r2 z hz, List.count_eq_zero.mpr hz]
          omega
      have hdisj' : ∀ p ∈ t, ∀ x ∈ p.2, (groupPlainLoop A l l).flatten.count x = 0 := by
        intro p hp x hx
        rw [hcount x, hdisj p (List.mem_cons_of_mem _ hp) x hx,
          List.count_eq_zero.mpr (hxnotl p hp x hx)]
      rw [ih (groupPlainLoop A l l) hnameslt hkeyst hbndt hdisj' r3 y, hcount y, hfs]
      omega

/-- Each conditional lands in exactly one group. -/
theorem groupRelated_count (conds : List Element) (hnd : conds.Nodup)
    (x : Element) (hx : x ∈ conds) :
    (groupRelatedConditionals conds).flatten.count x = 1 := by
  unfold groupRelatedConditionals
  have hbnd : ∀ p ∈ nameGroupsOf conds, ∀ y : Element, p.2.count y ≤ 1 := by
    intro p hp y
    refine (count_le_flattenSnd _ p hp y).trans ?_
    rw [nameGroups_count]
    exact (List.nodup_iff_count_le_one.mp hnd) y
  have h := bucketFold_count (nameGroupsOf conds) [] (nameGroups_namesOk conds)
    (nameGroups_keys_nodup conds) hbnd
    (fun p hp x hx => by simp)
    (fun y => by simp) x
  rw [h, nameGroups_count]
  simpa using List.count_eq_one_of_mem hnd hx

/-- The inner scan consumes exactly the directives of the chain, from
the opener through its matching `#endif` (all intermediate directives,
`#elif`/`#else` included, go into the one block), and scanning resumes
strictly after the matching `#endif`. -/
theorem scanChain_consumes_chain :
    ∀ (rest : List (Nat × String)) (stack : Nat) (acc bl : List (Nat × String))
      (el : Nat) (rem : List (Nat × String)), 0 < stack →
      scanChain rest stack acc = some (bl, el, rem) →
      ∃ k d', rest.get? k = some (el, d') ∧ pyStartsWith d' "#endif" = true ∧
        bl = acc ++ rest.take (k + 1) ∧ rem = rest.drop (k + 1) := by
  intro rest
  induction rest with
  | nil =>
    intro stack acc bl el rem hs h
    exact absurd h (by simp [scanChain])
  | cons p t ih =>
    intro stack acc bl el rem hs h
    obtain ⟨ln2, d2⟩ := p
    simp only [scanChain] at h
    by_cases h0 : scanStep d2 stack = 0
    · rw [if_pos h0] at h
      simp only [Option.some.injEq, Prod.mk.injEq] at h
      obtain ⟨h1, h2, h3⟩ := h
      refine ⟨0, d2, ?_, ?_, ?_, ?_⟩
      · rw [← h2]
        rfl
      · rw [scanStep_eq] at h0
        by_cases ha : pyStartsWith d2 "#if" = true
        · rw [if_pos ha] at h0
          exact absurd h0 (Nat.succ_ne_zero _)
        · rw [if_neg ha] at h0
          by_cases he : pyStartsWith d2 "#endif" = true
          · exact he
          · rw [if_neg he] at h0
            omega
      · rw [← h1]
        rfl
      · rw [← h3]
        rfl
    · rw [if_neg h0] at h
      have hpos : 0 < scanStep d2 stack := Nat.pos_of_ne_zero h0
      obtain ⟨k, d', hget, hend, hbl, hrem⟩ :=
        ih (scanStep d2 stack) (acc ++ [(ln2, d2)]) bl el rem hpos h
      refine ⟨k + 1, d', hget, hend, ?_, hrem⟩
      rw [hbl, List.take_succ_cons, List.append_assoc]
      rfl

/-! ## Claims C2, C3, C9, C10 -/
/-- C2, counterexample: the claim says a typedef whose name is in
`COMMON_TYPES` is always assigned `'common'`, in particular `'local_layer'`
even though it matches the `'_layer'` suffix rule.  In `_map_typedefs`
the `'_layer'` suffix rule is tested first, so the typedef `local_layer`
is assigned `'nn_types'`, not `'common'`. -/
theorem C2_counterexample :
    COMMON_TYPES.contains "local_layer" = true ∧
    mapTypedefComponentOf "local_layer" "typedef layer local_layer;" = "nn_types" ∧
    "nn_types" ≠ "common" := by
  refine ⟨by decide, by decide, by decide⟩

/-- C2, amended: the pins hold exactly as claimed for enums
(`COMMON_ENUMS`) and macros (`REQUIRED_CONSTANTS`); for typedefs the
`COMMON_TYPES` pin applies only to names that do not end in `'_layer'`,
because `_map_typedefs` tests the `'_layer'` suffix rule first. -/
theorem C2_pinned_allowlists (tname tcontent ename econtent mname mcontent : String)
    (ht : COMMON_TYPES.contains tname = true)
    (hl : pyEndsWith tname "_layer" = false)
    (he : COMMON_ENUMS.contains ename = true)
    (hm : REQUIRED_CONSTANTS.contains mname = true) :
    mapTypedefComponentOf tname tcontent = "common" ∧
    mapEnumComponentOf ename econtent = "common" ∧
    mapMacroComponentOf mname mcontent = "common" := by
  refine ⟨?_, ?_, ?_⟩
  · unfold mapTypedefComponentOf
    rw [hl, ht]
    simp
  · unfold mapEnumComponentOf
    rw [he]
    simp
  · unfold mapMacroComponentOf
    rw [hm]
    simp

/-- Witness for `C2_pinned_allowlists` at `network` / `ACTIVATION` /
`MIN`. -/
theorem C2_pinned_allowlists_witness :
    mapTypedefComponentOf "network" "" = "common" ∧
    mapEnumComponentOf "ACTIVATION" "" = "common" ∧
    mapMacroComponentOf "MIN" "" = "common" :=
  C2_pinned_allowlists "network" "" "ACTIVATION" "" "MIN" ""
    (by decide) (by decide) (by decide) (by decide)

/-- C3, counterexample: the claim says a conditional group testing
`_WIN32` in any accepted guard form — `'#ifdef _WIN32'` included — is
always assigned `'common'`.  The forced-to-common regex of
`_map_conditionals` only matches the `#if defined(...)` spelling; the
`#ifdef _WIN32` spelling falls through to the macro-owner rule (`_WIN32`
is not a classified symbol here) and then to the majority vote, which
assigns the group to `'cnn'`. -/
theorem C3_counterexample :
    searchFirstIfdefName c3Conditional.content.toList = some "_WIN32" ∧
    searchPlatformDefined c3Conditional.content = false ∧
    determineGroupComponent [("foo_cnn", some "cnn")] [c3Conditional] = "cnn" ∧
    "cnn" ≠ "common" := by
  refine ⟨by decide, by decide, by decide, by decide⟩

/-- C3, amended: a conditional group whose first conditional matches the
`#if defined(P)` spelling for a platform macro (`_WIN32`, `__APPLE__`,
`__linux__`, `_MSC_VER`) or a project OS macro (`OS_WIN`, `OS_UNIX`,
`OS_OTHER`) is always assigned `'common'`, overriding the majority vote;
the `#ifdef P` spelling does not trigger this forced rule. -/
theorem C3_platform_defined_forces_common (sm : SymbolMap) (c : Element)
    (rest : List Element)
    (h : searchPlatformDefined c.content = true ∨ searchOsDefined c.content = true) :
    determineGroupComponent sm (c :: rest) = "common" := by
  unfold determineGroupComponent forcedAndVotes
  rcases h with h | h
  · simp [h]
  · by_cases h1 : searchPlatformDefined c.content = true
    · simp [h1]
    · simp [h1, h]

/-- Witness for `C3_platform_defined_forces_common`: a one-element group
guarded by `#if defined(__APPLE__)`, with a symbol vote present that
would otherwise win. -/
theorem C3_platform_defined_forces_common_witness :
    determineGroupComponent [("foo_cnn", some "cnn")]
      [{ name := "conditional", etype := "conditional",
         content := "#if defined(__APPLE__)\nfoo_cnn();\n#endif",
         start := 0, endPos := 40, deps := [] }] = "common" :=
  C3_platform_defined_forces_common [("foo_cnn", some "cnn")] _ []
    (Or.inl (by decide))

/-- C9: `_determine_function_component` never consults its `content`
parameter, so classification of a function is insensitive to its body:
two functions with the same name and different bodies get the same
module. -/
theorem C9_function_component_content_insensitive
    (funcName content1 content2 : String) :
    determineFunctionComponent funcName content1
      = determineFunctionComponent funcName content2 := rfl

/-- C1: (i) the inner scan of `extract_conditionals` consumes a whole
chain: from the opener through its matching `#endif`, every directive —
intermediate `#elif`/`#else` lines included — goes into the one block,
and scanning resumes strictly after the matching `#endif`, so a
multi-branch chain becomes a single Conditional element; (ii) with
pairwise-distinct conditionals, grouping places every conditional in
exactly one group and `_map_conditionals` appends the whole group to the
one component chosen for it, so each conditional is appended to exactly
one module's element list; hence no chain is ever split between two
different output files. -/
theorem C1_conditional_chain_one_module :
    (∀ (rest : List (Nat × String)) (stack : Nat)
       (acc bl : List (Nat × String)) (el : Nat) (rem : List (Nat × String)),
       0 < stack → scanChain rest stack acc = some (bl, el, rem) →
       ∃ k d', rest.get? k = some (el, d') ∧ pyStartsWith d' "#endif" = true ∧
         bl = acc ++ rest.take (k + 1) ∧ rem = rest.drop (k + 1)) ∧
    (∀ (sm : SymbolMap) (conds : List Element), conds.Nodup →
       ∀ e ∈ conds,
         ((condAssignments sm conds).map Prod.snd).flatten.count e = 1) ∧
    (∀ (sm : SymbolMap) (conds : List Element) (comp : String) (g : List Element),
       (comp, g) ∈ condAssignments sm conds →
       comp = determineGroupComponent sm g) := by
  refine ⟨scanChain_consumes_chain, ?_, ?_⟩
  · intro sm conds hnd e he
    have hmap : (condAssignments sm conds).map Prod.snd
        = groupRelatedConditionals conds := by
      unfold condAssignments
      rw [List.map_map]
      exact List.map_id'' (fun g => rfl) _
    rw [hmap]
    exact groupRelated_count conds hnd e he
  · intro sm conds comp g hmem
    unfold condAssignments at hmem
    obtain ⟨g', hg', heq⟩ := List.mem_map.mp hmem
    simp only [Prod.mk.injEq] at heq
    obtain ⟨h1, h2⟩ := heq
    subst h2
    exact h1.symm

/-- Witness for `C1_conditional_chain_one_module`: a concrete
`#if/#elif/#endif` chain scan and a concrete two-conditional grouping. -/
theorem C1_conditional_chain_one_module_witness :
    (∃ k d', ([((1 : Nat), "#elif B"), (2, "#endif")]
        : List (Nat × String)).get? k = some (2, d') ∧
      pyStartsWith d' "#endif" = true ∧
      ([((0 : Nat), "#if A"), (1, "#elif B"), (2, "#endif")]
          : List (Nat × String))
        = [((0 : Nat), "#if A")]
            ++ ([((1 : Nat), "#elif B"), (2, "#endif")]
                : List (Nat × String)).take (k + 1) ∧
      ([] : List (Nat × String))
        = ([((1 : Nat), "#elif B"), (2, "#endif")]
            : List (Nat × String)).drop (k + 1)) ∧
    ((condAssignments [] [c1wA, c1wB]).map Prod.snd).flatten.count c1wA = 1 ∧
    "common" = determineGroupComponent [] [c1wA] :=
  ⟨C1_conditional_chain_one_module.1 [(1, "#elif B"), (2, "#endif")] 1
      [(0, "#if A")] [(0, "#if A"), (1, "#elif B"), (2, "#endif")] 2 []
      (by decide) (by decide),
   C1_conditional_chain_one_module.2.1 [] [c1wA, c1wB] (by decide) c1wA
      (List.mem_cons_self _ _),
   C1_conditional_chain_one_module.2.2 [] [c1wA, c1wB] "common" [c1wA]
      (by
        rw [show condAssignments [] [c1wA, c1wB]
            = [("common", [c1wA]), ("common", [c1wB])] from by decide]
        exact List.mem_cons_self _ _)⟩

/-- C7, counterexample: an exception raised during processing (inside
`extract_and_process`) is caught by that method's own handler (lines
1563-1566), reported with a traceback, and swallowed; `main` then
finishes the run and the process exits with status 0.  This contradicts
the claim that an unrecoverable exception during processing causes a
non-zero exit: the traceback is printed but the exit code is 0. -/
theorem C7_counterexample :
    mainRun { skipVerification := false, strict := false }
      { constructorRaises := false, processingRaises := true,
        verifyRaises := false, interrupted := false,
        timeBudgetNearlyUsed := false, issuesFound := false }
      = { exitCode := 0, tracebackPrinted := true, partialNotice := false } := rfl

/-- C7, amended: only an exception that escapes to `main`'s top-level
handler exits non-zero (with a traceback); an exception inside
`extract_and_process` is reported with a traceback but the run continues,
and the exit code is then governed by the normal rules: zero on success
even with warnings, one when the strict flag is set and verification
found issues; a keyboard interrupt prints the partial-completion notice
and exits zero. -/
theorem C7_exit_behavior :
    (∀ (args : SplitterArgs) (ev : RunEvents), ev.interrupted = false →
      ev.constructorRaises = true →
      mainRun args ev = { exitCode := 1, tracebackPrinted := true,
                          partialNotice := false }) ∧
    (∀ (args : SplitterArgs) (ev : RunEvents), ev.interrupted = false →
      ev.constructorRaises = false → ev.timeBudgetNearlyUsed = false →
      ev.verifyRaises = false → args.skipVerification = false →
      mainRun args ev = { exitCode := if args.strict && ev.issuesFound then 1 else 0,
                          tracebackPrinted := ev.processingRaises,
                          partialNotice := false }) ∧
    (∀ (args : SplitterArgs) (ev : RunEvents), ev.interrupted = true →
      mainRun args ev = { exitCode := 0, tracebackPrinted := false,
                          partialNotice := true }) := by
  refine ⟨?_, ?_, ?_⟩
  · intro args ev hi hc
    unfold mainRun
    rw [hi, hc]
    simp
  · intro args ev hi hc ht hv hs
    unfold mainRun
    rw [hi, hc, ht, hv, hs]
    by_cases hsi : (args.strict && ev.issuesFound) = true
    · simp [hsi]
    · simp only [Bool.not_eq_true] at hsi
      simp [hsi]
  · intro args ev hi
    unfold mainRun
    rw [hi]
    simp

/-- Witness for `C7_exit_behavior`: one concrete run per conjunct. -/
theorem C7_exit_behavior_witness :
    mainRun { skipVerification := false, strict := false }
      { constructorRaises := true, processingRaises := false,
        verifyRaises := false, interrupted := false,
        timeBudgetNearlyUsed := false, issuesFound := false }
      = { exitCode := 1, tracebackPrinted := true, partialNotice := false } ∧
    mainRun { skipVerification := false, strict := true }
      { constructorRaises := false, processingRaises := false,
        verifyRaises := false, interrupted := false,
        timeBudgetNearlyUsed := false, issuesFound := true }
      = { exitCode := 1, tracebackPrinted := false, partialNotice := false } ∧
    mainRun { skipVerification := false, strict := false }
      { constructorRaises := false, processingRaises := false,
        verifyRaises := false, interrupted := true,
        timeBudgetNearlyUsed := false, issuesFound := false }
      = { exitCode := 0, tracebackPrinted := false, partialNotice := true } := by
  refine ⟨C7_exit_behavior.1 _ _ rfl rfl, ?_, C7_exit_behavior.2.2 _ _ rfl⟩
  have h := C7_exit_behavior.2.1
    { skipVerification := false, strict := true }
    { constructorRaises := false, processingRaises := false,
      verifyRaises := false, interrupted := false,
      timeBudgetNearlyUsed := false, issuesFound := true }
    rfl rfl rfl rfl rfl
  simpa using h

/-- C10: `_are_conditions_similar` is symmetric: every one of its tests
(exact match on the normalized conditions, platform patterns, feature
name starts, and the two negated-pair checks) is symmetric in its two
arguments. -/
theorem C10_conditions_similar_symm (condition1 condition2 : String) :
    areConditionsSimilar condition1 condition2
      = areConditionsSimilar condition2 condition1 := by
  unfold areConditionsSimilar
  set a := normalizeCondition condition1 with ha
  set b := normalizeCondition condition2 with hb
  by_cases hab : a = b
  · simp [hab]
  · have hba : ¬b = a := fun h => hab h.symm
    rw [if_neg hab, if_neg hba]
    by_cases hpa : (similarPlatformList.any fun p => strContains a p) = true <;>
      by_cases hpb : (similarPlatformList.any fun p => strContains b p) = true <;>
      by_cases hfa : (similarFeatureList.any fun f => pyStartsWith a f) = true <;>
      by_cases hfb : (similarFeatureList.any fun f => pyStartsWith b f) = true <;>
      by_cases hna : (pyStartsWith a "!" && decide (pyDrop a 1 = b)) = true <;>
      by_cases hnb : (pyStartsWith b "!" && decide (pyDrop b 1 = a)) = true <;>
      simp [hpa, hpb, hfa, hfb, hna, hnb]

/-! ## Counting elements through the output assembly (for C4) -/
theorem count_appendTo (comp : String) (e : Element) :
    ∀ (of : OutputFiles) (y : Element),
      (flattenOF (appendTo of comp e)).count y
        = (flattenOF of).count y + ([e] : List Element).count y := by
  intro of
  induction of with
  | nil =>
    intro y
    simp [appendTo, flattenOF]
  | cons q t ih =>
    intro y
    obtain ⟨k, l⟩ := q
    simp only [appendTo]
    by_cases hk : k = comp
    · rw [if_pos hk]
      simp only [flattenOF, List.map_cons, List.flatten_cons, List.count_append]
      omega
    · rw [if_neg hk]
      simp only [flattenOF, List.map_cons, List.flatten_cons, List.count_append]
      have := ih y
      simp only [flattenOF] at this
      omega

theorem foldAppend_count (dec : Element → String) :
    ∀ (xs : List Element) (of : OutputFiles) (y : Element),
      (flattenOF (xs.foldl (fun o x => appendTo o (dec x) x) of)).count y
        = (flattenOF of).count y + xs.count y := by
  intro xs
  induction xs with
  | nil => intro of y; simp
  | cons x t ih =>
    intro of y
    simp only [List.foldl_cons]
    rw [ih (appendTo of (dec x) x) y, count_appendTo (dec x) x of y]
    simp only [List.count_cons, List.count_nil]
    omega

theorem mapFunctions_count (of : OutputFiles) (l : List Element) (y : Element) :
    (flattenOF (mapFunctions of l)).count y = (flattenOF of).count y + l.count y :=
  foldAppend_count (fun x => determineFunctionComponent x.name x.content) l of y

theorem mapStructs_count (of : OutputFiles) (l : List Element) (y : Element) :
    (flattenOF (mapStructs of l)).count y = (flattenOF of).count y + l.count y :=
  foldAppend_count (fun x => determineStructComponent x.name x.content) l of y

theorem mapEnums_count (of : OutputFiles) (l : List Element) (y : Element) :
    (flattenOF (mapEnums of l)).count y = (flattenOF of).count y + l.count y :=
  foldAppend_count (fun x => mapEnumComponentOf x.name x.content) l of y

theorem mapTypedefs_count (of : OutputFiles) (l : List Element) (y : Element) :
    (flattenOF (mapTypedefs of l)).count y = (flattenOF of).count y + l.count y :=
  foldAppend_count (fun x => mapTypedefComponentOf x.name x.content) l of y

theorem mapGlobals_count (of : OutputFiles) (l : List Element) (y : Element) :
    (flattenOF (mapGlobals of l)).count y = (flattenOF of).count y + l.count y :=
  foldAppend_count (fun x => determineGlobalComponent x.name x.content) l of y

theorem mapMacros_count (of : OutputFiles) (l : List Element) (y : Element) :
    (flattenOF (mapMacros of l)).count y = (flattenOF of).count y + l.count y :=
  foldAppend_count (fun x => mapMacroComponentOf x.name x.content) l of y

theorem appendAll_count (comp : String) (es : List Element) (of : OutputFiles)
    (y : Element) :
    (flattenOF (appendAll of comp es)).count y = (flattenOF of).count y + es.count y :=
  foldAppend_count (fun _ => comp) es of y

theorem mapConditionalsOF_count (sm : SymbolMap) (conds : List Element)
    (of : OutputFiles) (y : Element) :
    (flattenOF (mapConditionalsOF sm of conds)).count y
      = (flattenOF of).count y
        + ((condAssignments sm conds).map Prod.snd).flatten.count y := by
  unfold mapConditionalsOF
  have h : ∀ (asg : List (String × List Element)) (ofx : OutputFiles),
      (flattenOF (asg.foldl (fun o p => appendAll o p.1 p.2) ofx)).count y
        = (flattenOF ofx).count y + (asg.map Prod.snd).flatten.count y := by
    intro asg
    induction asg with
    | nil => intro ofx; simp
    | cons p t ih =>
      intro ofx
      simp only [List.foldl_cons, List.map_cons, List.flatten_cons, List.count_append]
      rw [ih (appendAll ofx p.1 p.2), appendAll_count p.1 p.2 ofx y]
      omega
  exact h (condAssignments sm conds) of

theorem condAssignments_snd (sm : SymbolMap) (conds : List Element) :
    (condAssignments sm conds).map Prod.snd = groupRelatedConditionals conds := by
  unfold condAssignments
  rw [List.map_map]
  have hcf : (Prod.snd ∘ fun g : List Element => (determineGroupComponent sm g, g))
      = id := rfl
  rw [hcf, List.map_id]

theorem insertByStart_count (e : Element) :
    ∀ (l : List Element) (y : Element),
      (insertByStart e l).count y = l.count y + ([e] : List Element).count y := by
  intro l
  induction l with
  | nil => intro y; simp [insertByStart]
  | cons x t ih =>
    intro y
    unfold insertByStart
    by_cases h : e.start < x.start
    · rw [if_pos h]
      simp only [List.count_cons, List.count_nil]
      omega
    · rw [if_neg h]
      simp only [List.count_cons]
      rw [ih y]
      simp only [List.count_cons, List.count_nil]
      omega

theorem sortByStart_count (l : List Element) (y : Element) :
    (sortByStart l).count y = l.count y := by
  unfold sortByStart
  have h : ∀ (m : List Element) (acc : List Element),
      (m.foldl (fun acc e => insertByStart e acc) acc).count y
        = acc.count y + m.count y := by
    intro m
    induction m with
    | nil => intro acc; simp
    | cons e t ih =>
      intro acc
      simp only [List.foldl_cons]
      rw [ih (insertByStart e acc), insertByStart_count e acc y]
      simp only [List.count_cons, List.count_nil]
      omega
  rw [h l []]
  simp

theorem mapSort_count (of : OutputFiles) (y : Element) :
    (flattenOF (of.map fun p => (p.1, sortByStart p.2))).count y
      = (flattenOF of).count y := by
  unfold flattenOF
  induction of with
  | nil => rfl
  | cons p t ih =>
    simp only [List.map_cons, List.flatten_cons, List.count_append]
    rw [ih, sortByStart_count p.2 y]

/-- Possibly-nodup-requiring exact count of a conditional through the
grouping: under distinct conditionals the group pool holds every
element exactly as often as the input list does. -/
theorem groupRelated_count_all (conds : List Element) (hnd : conds.Nodup)
    (y : Element) :
    (groupRelatedConditionals conds).flatten.count y = conds.count y := by
  unfold groupRelatedConditionals
  have hbnd : ∀ p ∈ nameGroupsOf conds, ∀ z : Element, p.2.count z ≤ 1 := by
    intro p hp z
    refine (count_le_flattenSnd _ p hp z).trans ?_
    rw [nameGroups_count]
    exact (List.nodup_iff_count_le_one.mp hnd) z
  have h := bucketFold_count (nameGroupsOf conds) [] (nameGroups_namesOk conds)
    (nameGroups_keys_nodup conds) hbnd
    (fun p hp x hx => by simp)
    (fun z => by simp) y
  rw [h, nameGroups_count]
  simp

theorem flattenOF_mapSymbols_count (fs ss es ts gs ms conds : List Element)
    (sm : SymbolMap) (y : Element) :
    (flattenOF (mapSymbolsToComponents fs ss es ts gs ms conds sm)).count y
      = fs.count y + ss.count y + es.count y + ts.count y + gs.count y + ms.count y
        + (groupRelatedConditionals conds).flatten.count y := by
  unfold mapSymbolsToComponents
  rw [mapSort_count, mapConditionalsOF_count, condAssignments_snd, mapMacros_count,
    mapGlobals_count, mapTypedefs_count, mapEnums_count, mapStructs_count,
    mapFunctions_count]
  simp only [flattenOF, List.map_nil, List.flatten_nil, List.count_nil]
  omega

theorem count_zero_of_etype (l : List Element) (ety : String)
    (h : ∀ x ∈ l, x.etype = ety) (y : Element) (hy : y.etype ≠ ety) : l.count y = 0 := by
  rw [List.count_eq_zero]
  intro hm
  exact hy (h y hm)

theorem mem_flattenOF_mapSymbols (fs ss es ts gs ms conds : List Element)
    (sm : SymbolMap) (hcnd : conds.Nodup) (e : Element)
    (he : e ∈ flattenOF (mapSymbolsToComponents fs ss es ts gs ms conds sm)) :
    e ∈ fs ∨ e ∈ ss ∨ e ∈ es ∨ e ∈ ts ∨ e ∈ gs ∨ e ∈ ms ∨ e ∈ conds := by
  by_contra hall
  push_neg at hall
  obtain ⟨h1, h2, h3, h4, h5, h6, h7⟩ := hall
  have hz := flattenOF_mapSymbols_count fs ss es ts gs ms conds sm e
  rw [groupRelated_count_all conds hcnd e, List.count_eq_zero.mpr h1,
    List.count_eq_zero.mpr h2, List.count_eq_zero.mpr h3, List.count_eq_zero.mpr h4,
    List.count_eq_zero.mpr h5, List.count_eq_zero.mpr h6,
    List.count_eq_zero.mpr h7] at hz
  exact (List.count_eq_zero.mp
    (by omega :
      (flattenOF (mapSymbolsToComponents fs ss es ts gs ms conds sm)).count e = 0)) he

/-! ## What one element contributes to a module header -/
theorem functionDeclElem_spec (elem d : Element) (h : functionDeclElem elem = some d) :
    pyStartsWith d.content "static" = false ∧ d.etype = "declaration"
      ∧ d.start = elem.start := by
  unfold functionDeclElem at h
  cases hci : charIndexOf elem.content.toList '{' with
  | none =>
    rw [hci] at h
    exact absurd h (by simp)
  | some i =>
    rw [hci] at h
    dsimp only at h
    by_cases hst : pyStartsWith (functionDeclContent elem.content i) "static" = true
    · rw [if_pos hst] at h
      exact absurd h (by simp)
    · rw [if_neg hst] at h
      simp only [Option.some.injEq] at h
      refine ⟨?_, ?_, ?_⟩
      · rw [← h]
        show pyStartsWith (functionDeclContent elem.content i) "static" = false
        exact Bool.of_not_eq_true hst
      · rw [← h]
      · rw [← h]

theorem headerStep_count (fileKey : String) (d : Element) (hd : d.etype = "declaration")
    (elem : Element) :
    (headerStep fileKey elem).count d = if declPred d elem then 1 else 0 := by
  unfold headerStep declPred
  by_cases h1 : (["struct", "typedef", "macro", "enum"].contains elem.etype) = true
  · rw [if_pos h1]
    have hne : ¬(elem.etype = "function") := by
      intro he
      rw [he] at h1
      exact absurd h1 (by decide)
    have hned : ¬(elem = d) := by
      intro he
      rw [he, hd] at h1
      exact absurd h1 (by decide)
    split
    · simp [hne]
    · simp [List.count_cons, hne, hned]
  · rw [if_neg h1]
    by_cases h2 : elem.etype = "function"
    · rw [if_pos h2]
      cases hfd : functionDeclElem elem with
      | none => simp [h2, hfd]
      | some d' =>
        by_cases hdd : d' = d
        · subst hdd
          simp [h2, hfd, List.count_cons]
        · have hsne : ¬(functionDeclElem elem = some d) := by
            rw [hfd]
            simp [hdd]
          simp [h2, hfd, hdd, hsne, List.count_cons]
    · rw [if_neg h2]
      by_cases h4 : elem.etype = "conditional"
      · rw [if_pos h4]
        by_cases h5 : condHasDeclShapedContent elem.content = true
        · rw [if_pos h5]
          have hz : (condDeclExtract elem).count d = 0 := by
            rw [List.count_eq_zero]
            intro hm
            simp only [condDeclExtract, List.mem_singleton] at hm
            have he : elem.etype = "declaration" := by
              rw [← hd, hm]
            exact absurd (h4.symm.trans he) (by decide)
          rw [hz]
          simp [h2]
        · rw [if_neg h5]
          simp [h2]
      · rw [if_neg h4]
        simp [h2]

theorem headerElements_foldl_count (fileKey : String) (d : Element)
    (hd : d.etype = "declaration") :
    ∀ (elements : List Element) (acc : List Element),
      (elements.foldl (fun acc elem => acc ++ headerStep fileKey elem) acc).count d
        = acc.count d + elements.countP (declPred d) := by
  intro elements
  induction elements with
  | nil => intro acc; simp
  | cons e t ih =>
    intro acc
    simp only [List.foldl_cons, List.countP_cons]
    rw [ih (acc ++ headerStep fileKey e), List.count_append,
      headerStep_count fileKey d hd e]
    by_cases hp : declPred d e = true
    · rw [if_pos hp]
      omega
    · rw [if_neg hp]
      omega

theorem headerElementsOf_count (fileKey : String) (d : Element)
    (hd : d.etype = "declaration") (elements : List Element) :
    (headerElementsOf fileKey elements).count d = elements.countP (declPred d) := by
  unfold headerElementsOf
  rw [headerElements_foldl_count fileKey d hd elements []]
  simp

theorem balanceFix_or_id (e : Element) :
    e.etype = "conditional" ∨ balanceFixConditional e = e := by
  by_cases hc : e.etype = "conditional"
  · exact Or.inl hc
  · right
    unfold balanceFixConditional
    rw [if_neg hc]

theorem balanceFix_cond_etype (e : Element) (h : e.etype = "conditional") :
    (balanceFixConditional e).etype = "conditional" := by
  unfold balanceFixConditional
  rw [if_pos h]
  exact h

theorem implFix_or_id (e : Element) :
    e.etype = "conditional" ∨ implFixElement e = e := by
  by_cases hc : e.etype = "conditional"
  · exact Or.inl hc
  · right
    unfold implFixElement
    rw [if_neg hc]

theorem implFix_cond_etype (e : Element) (h : e.etype = "conditional") :
    (implFixElement e).etype = "conditional" := by
  unfold implFixElement
  rw [if_pos h]
  exact h

/-- A per-element fix that touches only conditionals cannot change the
number of occurrences of a non-conditional element. -/
theorem condFixMap_count (g : Element → Element)
    (hg : ∀ e, e.etype = "conditional" ∨ g e = e)
    (hg2 : ∀ e, e.etype = "conditional" → (g e).etype = "conditional")
    (d : Element) (hd : ¬(d.etype = "conditional")) (l : List Element) :
    (l.map g).count d = l.count d := by
  have key : ∀ e, (g e = d) ↔ (e = d) := by
    intro e
    constructor
    · intro h
      rcases hg e with hc | hid
      · exfalso
        have h2 := hg2 e hc
        rw [h] at h2
        exact hd h2
      · rw [← hid]
        exact h
    · intro h
      rcases hg e with hc | hid
      · exfalso
        rw [h] at hc
        exact hd hc
      · rw [hid, h]
  induction l with
  | nil => rfl
  | cons e t ih =>
    simp only [List.map_cons, List.count_cons, ih]
    congr 1
    by_cases he : e = d
    · have h1 : g e = d := (key e).mpr he
      rw [he] at h1
      rw [he]
      simp [h1]
    · have hgd : ¬(g e = d) := fun h => he ((key e).mp h)
      simp [he, hgd]

theorem moduleHeader_count (fileKey : String) (d : Element)
    (hd : d.etype = "declaration") (elements : List Element) :
    (moduleHeaderElements fileKey elements).count d = elements.countP (declPred d) := by
  unfold moduleHeaderElements
  rw [condFixMap_count balanceFixConditional balanceFix_or_id balanceFix_cond_etype d
    (by rw [hd]; decide), headerElementsOf_count fileKey d hd]

theorem allHeaderElems_count (of : OutputFiles) (d : Element)
    (hd : d.etype = "declaration") :
    (allHeaderElems of).count d = (flattenOF of).countP (declPred d) := by
  unfold allHeaderElems flattenOF
  induction of with
  | nil => rfl
  | cons p t ih =>
    simp only [List.map_cons, List.flatten_cons, List.count_append, List.countP_append]
    rw [ih, moduleHeader_count p.1 d hd p.2]

theorem countP_eq_count_of_iff (p : Element → Bool) (f : Element) :
    ∀ l : List Element, (∀ e ∈ l, p e = true ↔ e = f) → l.countP p = l.count f := by
  intro l
  induction l with
  | nil => intro h; rfl
  | cons e t ih =>
    intro h
    simp only [List.countP_cons, List.count_cons]
    rw [ih (fun x hx => h x (List.mem_cons_of_mem _ hx))]
    congr 1
    have he := h e (List.mem_cons_self _ _)
    by_cases hef : e = f
    · have hpe : p e = true := he.mpr hef
      rw [hef] at hpe
      rw [hef]
      simp [hpe]
    · have hp : ¬(p e = true) := fun hq => hef (he.mp hq)
      simp [hef, hp]

theorem count_filter_true {p : Element → Bool} {f : Element} (hp : p f = true) :
    ∀ l : List Element, (l.filter p).count f = l.count f := by
  intro l
  induction l with
  | nil => rfl
  | cons e t ih =>
    rw [List.filter_cons]
    by_cases he : p e = true
    · rw [if_pos he]
      simp only [List.count_cons, ih]
    · rw [if_neg he]
      rw [ih]
      simp only [List.count_cons]
      have hbf : (e == f) = false := by
        rw [beq_eq_false_iff_ne]
        intro h'
        rw [h'] at he
        exact he hp
      simp [hbf]

theorem moduleImpl_count (fileKey : String) (f : Element) (hf : f.etype = "function")
    (elements : List Element) :
    (moduleImplElements fileKey elements).count f = elements.count f := by
  unfold moduleImplElements
  rw [condFixMap_count implFixElement implFix_or_id implFix_cond_etype f
    (by rw [hf]; decide)]
  unfold implElementsOf
  apply count_filter_true
  simp [hf]

theorem allImplElems_count (of : OutputFiles) (f : Element)
    (hf : f.etype = "function") :
    (allImplElems of).count f = (flattenOF of).count f := by
  unfold allImplElems flattenOF
  induction of with
  | nil => rfl
  | cons p t ih =>
    simp only [List.map_cons, List.flatten_cons, List.count_append]
    rw [ih, moduleImpl_count p.1 f hf p.2]

theorem mem_headerElements_foldl (fileKey : String) :
    ∀ (elements : List Element) (acc : List Element) (d : Element),
      d ∈ elements.foldl (fun acc elem => acc ++ headerStep fileKey elem) acc →
      d ∈ acc ∨ ∃ e ∈ elements, d ∈ headerStep fileKey e := by
  intro elements
  induction elements with
  | nil =>
    intro acc d h
    exact Or.inl h
  | cons e t ih =>
    intro acc d h
    simp only [List.foldl_cons] at h
    rcases ih (acc ++ headerStep fileKey e) d h with h' | h'
    · rcases List.mem_append.mp h' with h'' | h''
      · exact Or.inl h''
      · exact Or.inr ⟨e, List.mem_cons_self _ _, h''⟩
    · obtain ⟨x, hx, hdx⟩ := h'
      exact Or.inr ⟨x, List.mem_cons_of_mem _ hx, hdx⟩

theorem headerStep_no_static (fileKey : String) (elem d : Element)
    (hmem : d ∈ headerStep fileKey elem) (hd : d.etype = "declaration") :
    pyStartsWith d.content "static" = false := by
  unfold headerStep at hmem
  by_cases h1 : (["struct", "typedef", "macro", "enum"].contains elem.etype) = true
  · rw [if_pos h1] at hmem
    split at hmem
    · exact absurd hmem (List.not_mem_nil d)
    · rw [List.mem_singleton] at hmem
      subst hmem
      rw [hd] at h1
      exact absurd h1 (by decide)
  · rw [if_neg h1] at hmem
    by_cases h2 : elem.etype = "function"
    · rw [if_pos h2] at hmem
      cases hfd : functionDeclElem elem with
      | none =>
        rw [hfd] at hmem
        exact absurd hmem (List.not_mem_nil d)
      | some d' =>
        rw [hfd] at hmem
        rw [List.mem_singleton] at hmem
        subst hmem
        exact (functionDeclElem_spec elem d hfd).1
    · rw [if_neg h2] at hmem
      by_cases h4 : elem.etype = "conditional"
      · rw [if_pos h4] at hmem
        by_cases h5 : condHasDeclShapedContent elem.content = true
        · rw [if_pos h5] at hmem
          simp only [condDeclExtract, List.mem_singleton] at hmem
          have he : elem.etype = "declaration" := by
            rw [← hd, hmem]
          rw [h4] at he
          exact absurd he (by decide)
        · rw [if_neg h5] at hmem
          exact absurd hmem (List.not_mem_nil d)
      · rw [if_neg h4] at hmem
        exact absurd hmem (List.not_mem_nil d)

/-- C4: every extracted function whose derived prototype does not begin
with `static` yields exactly one prototype declaration across all module
headers (the body truncated at the first `{`, stripped, with `;`
appended) and exactly one body across all implementation units, and no
declaration placed in any header begins with `static`.  The hypotheses
are the extraction invariants: each input list holds elements of its
kind only, the function and conditional lists are duplicate-free,
distinct functions occupy distinct source offsets, and no conditional's
content contains declaration-shaped text (so the conditional
header-extraction branch, whose Python body would crash the run, is
unreachable). -/
theorem C4_one_prototype_one_body
    (fs ss es ts gs ms conds : List Element) (sm : SymbolMap) (f d : Element)
    (hfty : ∀ x ∈ fs, x.etype = "function")
    (hsty : ∀ x ∈ ss, x.etype = "struct")
    (hety : ∀ x ∈ es, x.etype = "enum")
    (htty : ∀ x ∈ ts, x.etype = "typedef")
    (hgty : ∀ x ∈ gs, x.etype = "global")
    (hmty : ∀ x ∈ ms, x.etype = "macro")
    (hcty : ∀ x ∈ conds, x.etype = "conditional")
    (hfnd : fs.Nodup) (hcnd : conds.Nodup)
    (hstart : ∀ a ∈ fs, ∀ b ∈ fs, a.start = b.start → a = b)
    (hclean : ∀ x ∈ conds, condHasDeclShapedContent x.content = false)
    (hmem : f ∈ fs)
    (hd : functionDeclElem f = some d) :
    (allHeaderElems (mapSymbolsToComponents fs ss es ts gs ms conds sm)).count d = 1
    ∧ (allImplElems (mapSymbolsToComponents fs ss es ts gs ms conds sm)).count f = 1
    ∧ ∀ x ∈ allHeaderElems (mapSymbolsToComponents fs ss es ts gs ms conds sm),
        x.etype = "declaration" → pyStartsWith x.content "static" = false := by
  have hfe : f.etype = "function" := hfty f hmem
  obtain ⟨hdst, hdty, hdstart⟩ := functionDeclElem_spec f d hd
  have hcnt :
      (flattenOF (mapSymbolsToComponents fs ss es ts gs ms conds sm)).count f = 1 := by
    rw [flattenOF_mapSymbols_count, groupRelated_count_all conds hcnd f,
      count_zero_of_etype ss "struct" hsty f (by rw [hfe]; decide),
      count_zero_of_etype es "enum" hety f (by rw [hfe]; decide),
      count_zero_of_etype ts "typedef" htty f (by rw [hfe]; decide),
      count_zero_of_etype gs "global" hgty f (by rw [hfe]; decide),
      count_zero_of_etype ms "macro" hmty f (by rw [hfe]; decide),
      count_zero_of_etype conds "conditional" hcty f (by rw [hfe]; decide),
      List.count_eq_one_of_mem hfnd hmem]
  refine ⟨?_, ?_, ?_⟩
  · rw [allHeaderElems_count _ d hdty]
    have hpt : ∀ e ∈ flattenOF (mapSymbolsToComponents fs ss es ts gs ms conds sm),
        declPred d e = true ↔ e = f := by
      intro e hemem
      constructor
      · intro hp
        unfold declPred at hp
        simp only [Bool.and_eq_true, decide_eq_true_eq] at hp
        obtain ⟨hpe, hpd⟩ := hp
        rcases mem_flattenOF_mapSymbols fs ss es ts gs ms conds sm hcnd e hemem with
          h | h | h | h | h | h | h
        · obtain ⟨_, _, hest⟩ := functionDeclElem_spec e d hpd
          refine hstart e h f hmem ?_
          rw [← hest, hdstart]
        · exact absurd (hpe.symm.trans (hsty e h)) (by decide)
        · exact absurd (hpe.symm.trans (hety e h)) (by decide)
        · exact absurd (hpe.symm.trans (htty e h)) (by decide)
        · exact absurd (hpe.symm.trans (hgty e h)) (by decide)
        · exact absurd (hpe.symm.trans (hmty e h)) (by decide)
        · exact absurd (hpe.symm.trans (hcty e h)) (by decide)
      · intro he
        rw [he]
        unfold declPred
        simp [hfe, hd]
    rw [countP_eq_count_of_iff (declPred d) f _ hpt]
    exact hcnt
  · rw [allImplElems_count _ f hfe]
    exact hcnt
  · intro x hx hxty
    unfold allHeaderElems at hx
    rw [List.mem_flatten] at hx
    obtain ⟨mh, hmh, hxmh⟩ := hx
    rw [List.mem_map] at hmh
    obtain ⟨p, hp, hpe⟩ := hmh
    rw [← hpe] at hxmh
    unfold moduleHeaderElements at hxmh
    rw [List.mem_map] at hxmh
    obtain ⟨e0, he0, hbe⟩ := hxmh
    have he0x : e0 = x := by
      rcases balanceFix_or_id e0 with hc | hid
      · exfalso
        have h2 := balanceFix_cond_etype e0 hc
        rw [hbe] at h2
        exact absurd (hxty.symm.trans h2) (by decide)
      · rw [hid] at hbe
        exact hbe
    rw [he0x] at he0
    unfold headerElementsOf at he0
    rcases mem_headerElements_foldl p.1 p.2 [] x he0 with h | h
    · exact absurd h (List.not_mem_nil x)
    · obtain ⟨elem, _, hstep⟩ := h
      exact headerStep_no_static p.1 elem x hstep hxty

/-- Witness for C4: a single non-static function `int foo(void)`
produces exactly one `int foo(void);` declaration among the headers and
exactly one body among the implementation units. -/
theorem C4_one_prototype_one_body_witness :
    (allHeaderElems (mapSymbolsToComponents [c4fun] [] [] [] [] [] [] [])).count c4decl
        = 1
    ∧ (allImplElems (mapSymbolsToComponents [c4fun] [] [] [] [] [] [] [])).count c4fun
        = 1 := by
  have h := C4_one_prototype_one_body [c4fun] [] [] [] [] [] [] [] c4fun c4decl
    (by decide) (by decide) (by decide) (by decide) (by decide) (by decide) (by decide)
    (by decide) (by decide) (by decide) (by decide)
    (List.mem_singleton.mpr rfl) (by decide)
  exact ⟨h.1, h.2.1⟩

/-- C8 counterexample: on `c8bad` the pass reports no issue at all, yet
rewrites the file (the long-`#define` truncation and indentation are
applied without setting any issue flag), and the second pass rewrites
the file again (the truncation dropped the closing quote, so the second
pass's unterminated-string fix appends a quote, which the long-define
check truncates away once more while indenting further) — the file is
not byte-identical after the second run. -/
theorem C8_counterexample :
    (verifyFileStep c8bad).2 = false
    ∧ ¬((verifyFileStep c8bad).1 = c8bad)
    ∧ ¬((verifyFileStep (verifyFileStep c8bad).1).1 = (verifyFileStep c8bad).1) := by
  decide

/-- C8 (amended): the pass is idempotent on files it leaves unchanged —
if a pass did not modify the content, a second pass leaves the file
byte-identical and reports the same issues — and the count-repair
appends `#endif` directives only when the open-directive count exceeds
the close-directive count.  Detecting no issues does not imply the file
was left unchanged: the macro-issue repairs rewrite files without
reporting any issue. -/
theorem C8_verify_idempotent (c : String) :
    ((verifyFileStep c).1 = c →
      (verifyFileStep (verifyFileStep c).1).1 = (verifyFileStep c).1
      ∧ (verifyFileStep (verifyFileStep c).1).2 = (verifyFileStep c).2)
    ∧ (countOpens c.toList ≤ countEndif c.toList → (commonIssuesFix c).1 = c →
        (verifyFileStep c).1 = c) := by
  constructor
  · intro h
    rw [h]
    exact ⟨h, rfl⟩
  · intro hoc hfix
    unfold verifyFileStep
    rw [if_pos hfix,
      if_neg (show ¬(countEndif c.toList < countOpens c.toList) from by omega)]

/-- Witness for C8: the clean file is left unchanged by the first pass
and byte-identical by the second. -/
theorem C8_verify_idempotent_witness :
    (verifyFileStep (verifyFileStep c8clean).1).1 = (verifyFileStep c8clean).1
    ∧ (verifyFileStep c8clean).1 = c8clean := by
  have h := C8_verify_idempotent c8clean
  exact ⟨(h.1 (by decide)).1, h.2 (by decide) (by decide)⟩

/-! ## Directive counts across concatenation

The directive scanners examine only a bounded prefix at each position;
appending a suffix that starts with a newline cannot create, destroy or
reshape any match, so the counts add up. -/
theorem matchLit_append_some :
    ∀ (p l r B : List Char), matchLit l p = some r →
      matchLit (l ++ B) p = some (r ++ B) := by
  intro p
  induction p with
  | nil =>
    intro l r B h
    simp only [matchLit] at h ⊢
    rw [← Option.some.injEq] at h
    simp only [Option.some.injEq] at h
    rw [← h]
  | cons q ps ih =>
    intro l r B h
    cases l with
    | nil => exact absurd h (by simp [matchLit])
    | cons c t =>
      simp only [matchLit] at h
      rw [List.cons_append]
      simp only [matchLit]
      by_cases hc : c = q
      · rw [if_pos hc] at h
        rw [if_pos hc]
        exact ih t r B h
      · rw [if_neg hc] at h
        exact absurd h (by simp)

theorem matchLit_append_none :
    ∀ (p l Bt : List Char), '\n' ∉ p → matchLit l p = none →
      matchLit (l ++ '\n' :: Bt) p = none := by
  intro p
  induction p with
  | nil =>
    intro l Bt _ h
    exact absurd h (by simp [matchLit])
  | cons q ps ih =>
    intro l Bt hp h
    cases l with
    | nil =>
      simp only [List.nil_append, matchLit]
      have hq : ¬('\n' = q) := by
        intro he
        exact hp (he ▸ List.mem_cons_self q ps)
      rw [if_neg hq]
    | cons c t =>
      simp only [matchLit] at h
      rw [List.cons_append]
      simp only [matchLit]
      by_cases hc : c = q
      · rw [if_pos hc] at h
        rw [if_pos hc]
        exact ih t Bt (fun hm => hp (List.mem_cons_of_mem q hm)) h
      · rw [if_neg hc] at h
        rw [if_neg hc]

theorem isBoundaryAt_append_nl (A Bt : List Char) :
    isBoundaryAt (A ++ '\n' :: Bt) = isBoundaryAt A := by
  cases A <;> rfl

theorem openMatchAt_append (A Bt : List Char) :
    openMatchAt (A ++ '\n' :: Bt) = (openMatchAt A).map fun r => r ++ '\n' :: Bt := by
  unfold openMatchAt
  cases h1 : matchLit A ("#if".toList) with
  | none =>
    rw [matchLit_append_none _ A Bt (by decide) h1]
    rfl
  | some r =>
    rw [matchLit_append_some _ A r _ h1]
    dsimp only
    rw [isBoundaryAt_append_nl]
    by_cases hb : isBoundaryAt r = true
    · rw [if_pos hb, if_pos hb]
      rfl
    · rw [if_neg hb, if_neg hb]
      cases h2 : matchLit r ("def".toList) with
      | some r2 =>
        rw [matchLit_append_some _ r r2 _ h2]
        dsimp only
        rw [isBoundaryAt_append_nl]
        by_cases hb2 : isBoundaryAt r2 = true
        · rw [if_pos hb2, if_pos hb2]
          rfl
        · rw [if_neg hb2, if_neg hb2]
          rfl
      | none =>
        rw [matchLit_append_none _ r Bt (by decide) h2]
        cases h3 : matchLit r ("ndef".toList) with
        | some r2 =>
          rw [matchLit_append_some _ r r2 _ h3]
          dsimp only
          rw [isBoundaryAt_append_nl]
          by_cases hb3 : isBoundaryAt r2 = true
          · rw [if_pos hb3, if_pos hb3]
            rfl
          · rw [if_neg hb3, if_neg hb3]
            rfl
        | none =>
          rw [matchLit_append_none _ r Bt (by decide) h3]
          rfl

theorem endifMatchAt_append (A Bt : List Char) :
    endifMatchAt (A ++ '\n' :: Bt) = (endifMatchAt A).map fun r => r ++ '\n' :: Bt := by
  unfold endifMatchAt
  cases h1 : matchLit A ("#endif".toList) with
  | none =>
    rw [matchLit_append_none _ A Bt (by decide) h1]
    rfl
  | some r =>
    rw [matchLit_append_some _ A r _ h1]
    dsimp only
    rw [isBoundaryAt_append_nl]
    by_cases hb : isBoundaryAt r = true
    · rw [if_pos hb, if_pos hb]
      rfl
    · rw [if_neg hb, if_neg hb]
      rfl

theorem matchLit_some_length :
    ∀ (p l r : List Char), matchLit l p = some r → r.length + p.length = l.length := by
  intro p
  induction p with
  | nil =>
    intro l r h
    simp only [matchLit, Option.some.injEq] at h
    rw [h]
    simp
  | cons q ps ih =>
    intro l r h
    cases l with
    | nil => exact absurd h (by simp [matchLit])
    | cons c t =>
      simp only [matchLit] at h
      by_cases hc : c = q
      · rw [if_pos hc] at h
        have := ih t r h
        simp only [List.length_cons]
        omega
      · rw [if_neg hc] at h
        exact absurd h (by simp)

theorem openMatchAt_some_length (l r : List Char) (h : openMatchAt l = some r) :
    r.length + 3 ≤ l.length := by
  unfold openMatchAt at h
  cases h1 : matchLit l ("#if".toList) with
  | none => rw [h1] at h; exact absurd h (by simp)
  | some r1 =>
    rw [h1] at h
    dsimp only at h
    have hl1 := matchLit_some_length _ l r1 h1
    by_cases hb : isBoundaryAt r1 = true
    · rw [if_pos hb] at h
      simp only [Option.some.injEq] at h
      subst h
      have e1 : ("#if".toList).length = 3 := rfl
      omega
    · rw [if_neg hb] at h
      cases h2 : matchLit r1 ("def".toList) with
      | some r2 =>
        rw [h2] at h
        dsimp only at h
        have hl2 := matchLit_some_length _ r1 r2 h2
        by_cases hb2 : isBoundaryAt r2 = true
        · rw [if_pos hb2] at h
          simp only [Option.some.injEq] at h
          subst h
          have e1 : ("#if".toList).length = 3 := rfl
          have e2 : ("def".toList).length = 3 := rfl
          omega
        · rw [if_neg hb2] at h
          exact absurd h (by simp)
      | none =>
        rw [h2] at h
        dsimp only at h
        cases h3 : matchLit r1 ("ndef".toList) with
        | some r2 =>
          rw [h3] at h
          dsimp only at h
          have hl3 := matchLit_some_length _ r1 r2 h3
          by_cases hb3 : isBoundaryAt r2 = true
          · rw [if_pos hb3] at h
            simp only [Option.some.injEq] at h
            subst h
            have e1 : ("#if".toList).length = 3 := rfl
            have e3 : ("ndef".toList).length = 4 := rfl
            omega
          · rw [if_neg hb3] at h
            exact absurd h (by simp)
        | none =>
          rw [h3] at h
          dsimp only at h
          exact absurd h (by simp)

theorem endifMatchAt_some_length (l r : List Char) (h : endifMatchAt l = some r) :
    r.length + 6 ≤ l.length := by
  unfold endifMatchAt at h
  cases h1 : matchLit l ("#endif".toList) with
  | none => rw [h1] at h; exact absurd h (by simp)
  | some r1 =>
    rw [h1] at h
    dsimp only at h
    have hl1 := matchLit_some_length _ l r1 h1
    by_cases hb : isBoundaryAt r1 = true
    · rw [if_pos hb] at h
      simp only [Option.some.injEq] at h
      subst h
      have e1 : ("#endif".toList).length = 6 := rfl
      omega
    · rw [if_neg hb] at h
      exact absurd h (by simp)

theorem countOpensFuel_nil (f : Nat) : countOpensFuel f [] = 0 := by
  cases f <;> rfl

theorem countEndifFuel_nil (f : Nat) : countEndifFuel f [] = 0 := by
  cases f <;> rfl

theorem countOpensFuel_congr :
    ∀ (n : Nat) (l : List Char), l.length ≤ n →
      ∀ f g, l.length ≤ f → l.length ≤ g → countOpensFuel f l = countOpensFuel g l := by
  intro n
  induction n with
  | zero =>
    intro l hl f g _ _
    have : l = [] := List.length_eq_zero.mp (Nat.le_zero.mp hl)
    subst this
    rw [countOpensFuel_nil, countOpensFuel_nil]
  | succ n ih =>
    intro l hl f g hf hg
    cases l with
    | nil => rw [countOpensFuel_nil, countOpensFuel_nil]
    | cons c t =>
      simp only [List.length_cons] at hl hf hg
      cases f with
      | zero => omega
      | succ f' =>
        cases g with
        | zero => omega
        | succ g' =>
          simp only [countOpensFuel]
          cases hm : openMatchAt (c :: t) with
          | none =>
            show countOpensFuel f' t = countOpensFuel g' t
            exact ih t (by omega) f' g' (by omega) (by omega)
          | some r =>
            have hr := openMatchAt_some_length _ _ hm
            simp only [List.length_cons] at hr
            show 1 + countOpensFuel f' r = 1 + countOpensFuel g' r
            congr 1
            exact ih r (by omega) f' g' (by omega) (by omega)

theorem countEndifFuel_congr :
    ∀ (n : Nat) (l : List Char), l.length ≤ n →
      ∀ f g, l.length ≤ f → l.length ≤ g → countEndifFuel f l = countEndifFuel g l := by
  intro n
  induction n with
  | zero =>
    intro l hl f g _ _
    have : l = [] := List.length_eq_zero.mp (Nat.le_zero.mp hl)
    subst this
    rw [countEndifFuel_nil, countEndifFuel_nil]
  | succ n ih =>
    intro l hl f g hf hg
    cases l with
    | nil => rw [countEndifFuel_nil, countEndifFuel_nil]
    | cons c t =>
      simp only [List.length_cons] at hl hf hg
      cases f with
      | zero => omega
      | succ f' =>
        cases g with
        | zero => omega
        | succ g' =>
          simp only [countEndifFuel]
          cases hm : endifMatchAt (c :: t) with
          | none =>
            show countEndifFuel f' t = countEndifFuel g' t
            exact ih t (by omega) f' g' (by omega) (by omega)
          | some r =>
            have hr := endifMatchAt_some_length _ _ hm
            simp only [List.length_cons] at hr
            show 1 + countEndifFuel f' r = 1 + countEndifFuel g' r
            congr 1
            exact ih r (by omega) f' g' (by omega) (by omega)

theorem countOpensFuel_eq (l : List Char) (f : Nat) (hf : l.length ≤ f) :
    countOpensFuel f l = countOpens l :=
  countOpensFuel_congr l.length l (Nat.le_refl _) f l.length hf (Nat.le_refl _)

theorem countEndifFuel_eq (l : List Char) (f : Nat) (hf : l.length ≤ f) :
    countEndifFuel f l = countEndif l :=
  countEndifFuel_congr l.length l (Nat.le_refl _) f l.length hf (Nat.le_refl _)

theorem countOpens_append_nl :
    ∀ (n : Nat) (A : List Char), A.length ≤ n → ∀ Bt : List Char,
      countOpens (A ++ '\n' :: Bt) = countOpens A + countOpens ('\n' :: Bt) := by
  intro n
  induction n with
  | zero =>
    intro A hA Bt
    have hA0 : A = [] := List.length_eq_zero.mp (Nat.le_zero.mp hA)
    subst hA0
    have h0 : countOpens ([] : List Char) = 0 := rfl
    rw [List.nil_append, h0]
    omega
  | succ n ih =>
    intro A hA Bt
    cases A with
    | nil =>
      have h0 : countOpens ([] : List Char) = 0 := rfl
      rw [List.nil_append, h0]
      omega
    | cons c t =>
      simp only [List.length_cons] at hA
      have hr1 : countOpens ((c :: t) ++ '\n' :: Bt)
          = countOpensFuel ((t ++ '\n' :: Bt).length + 1) (c :: (t ++ '\n' :: Bt)) := rfl
      have hr2 : countOpens (c :: t) = countOpensFuel (t.length + 1) (c :: t) := rfl
      rw [hr1, hr2]
      simp only [countOpensFuel]
      rw [show (c :: (t ++ '\n' :: Bt)) = ((c :: t) ++ '\n' :: Bt) from rfl,
        openMatchAt_append (c :: t) Bt]
      cases hm : openMatchAt (c :: t) with
      | none =>
        simp only [Option.map_none']
        show countOpens (t ++ '\n' :: Bt) = countOpens t + countOpens ('\n' :: Bt)
        exact ih t (by omega) Bt
      | some r =>
        simp only [Option.map_some']
        have hr := openMatchAt_some_length _ _ hm
        simp only [List.length_cons] at hr
        show 1 + countOpensFuel (t ++ '\n' :: Bt).length (r ++ '\n' :: Bt)
            = 1 + countOpensFuel t.length r + countOpens ('\n' :: Bt)
        rw [countOpensFuel_eq (r ++ '\n' :: Bt) _
            (by simp only [List.length_append, List.length_cons]; omega),
          countOpensFuel_eq r _ (by omega),
          ih r (by omega) Bt]
        omega

theorem countEndif_append_nl :
    ∀ (n : Nat) (A : List Char), A.length ≤ n → ∀ Bt : List Char,
      countEndif (A ++ '\n' :: Bt) = countEndif A + countEndif ('\n' :: Bt) := by
  intro n
  induction n with
  | zero =>
    intro A hA Bt
    have hA0 : A = [] := List.length_eq_zero.mp (Nat.le_zero.mp hA)
    subst hA0
    have h0 : countEndif ([] : List Char) = 0 := rfl
    rw [List.nil_append, h0]
    omega
  | succ n ih =>
    intro A hA Bt
    cases A with
    | nil =>
      have h0 : countEndif ([] : List Char) = 0 := rfl
      rw [List.nil_append, h0]
      omega
    | cons c t =>
      simp only [List.length_cons] at hA
      have hr1 : countEndif ((c :: t) ++ '\n' :: Bt)
          = countEndifFuel ((t ++ '\n' :: Bt).length + 1) (c :: (t ++ '\n' :: Bt)) := rfl
      have hr2 : countEndif (c :: t) = countEndifFuel (t.length + 1) (c :: t) := rfl
      rw [hr1, hr2]
      simp only [countEndifFuel]
      rw [show (c :: (t ++ '\n' :: Bt)) = ((c :: t) ++ '\n' :: Bt) from rfl,
        endifMatchAt_append (c :: t) Bt]
      cases hm : endifMatchAt (c :: t) with
      | none =>
        simp only [Option.map_none']
        show countEndif (t ++ '\n' :: Bt) = countEndif t + countEndif ('\n' :: Bt)
        exact ih t (by omega) Bt
      | some r =>
        simp only [Option.map_some']
        have hr := endifMatchAt_some_length _ _ hm
        simp only [List.length_cons] at hr
        show 1 + countEndifFuel (t ++ '\n' :: Bt).length (r ++ '\n' :: Bt)
            = 1 + countEndifFuel t.length r + countEndif ('\n' :: Bt)
        rw [countEndifFuel_eq (r ++ '\n' :: Bt) _
            (by simp only [List.length_append, List.length_cons]; omega),
          countEndifFuel_eq r _ (by omega),
          ih r (by omega) Bt]
        omega

theorem countOpens_append_of_head (A B : List Char) (hB : B.head? = some '\n') :
    countOpens (A ++ B) = countOpens A + countOpens B := by
  cases B with
  | nil => simp at hB
  | cons b Bt =>
    have hb : b = '\n' := by simpa using hB
    subst hb
    exact countOpens_append_nl A.length A (Nat.le_refl _) Bt

theorem countEndif_append_of_head (A B : List Char) (hB : B.head? = some '\n') :
    countEndif (A ++ B) = countEndif A + countEndif B := by
  cases B with
  | nil => simp at hB
  | cons b Bt =>
    have hb : b = '\n' := by simpa using hB
    subst hb
    exact countEndif_append_nl A.length A (Nat.le_refl _) Bt

theorem repairLine_repeat_head (n : Nat) (hn : 0 < n) :
    (repeatAppend balanceRepairLine n).toList.head? = some '\n' := by
  cases n with
  | zero => omega
  | succ m => rfl

theorem countOpens_repairLines : ∀ n : Nat,
    countOpens (repeatAppend balanceRepairLine n).toList = 0 := by
  intro n
  induction n with
  | zero => rfl
  | succ m ih =>
    have hform : (repeatAppend balanceRepairLine (m + 1)).toList
        = balanceRepairLine.toList ++ (repeatAppend balanceRepairLine m).toList := rfl
    rw [hform]
    cases m with
    | zero => decide
    | succ k =>
      rw [countOpens_append_of_head _ _ (repairLine_repeat_head (k + 1) (by omega)), ih]
      have h0 : countOpens balanceRepairLine.toList = 0 := by decide
      omega

theorem countEndif_repairLines : ∀ n : Nat,
    countEndif (repeatAppend balanceRepairLine n).toList = n := by
  intro n
  induction n with
  | zero => rfl
  | succ m ih =>
    have hform : (repeatAppend balanceRepairLine (m + 1)).toList
        = balanceRepairLine.toList ++ (repeatAppend balanceRepairLine m).toList := rfl
    rw [hform]
    cases m with
    | zero => decide
    | succ k =>
      rw [countEndif_append_of_head _ _ (repairLine_repeat_head (k + 1) (by omega)), ih]
      have h1 : countEndif balanceRepairLine.toList = 1 := by decide
      omega

/-- C5 counterexample: the input's directives are balanced, the whole
pipeline runs (extraction, mapping, synthesis, both verification
passes), yet the generated files' total open-directive count differs
from their total `#endif` count: extraction's context lines duplicate
the two adjacent directives in opposite directions, the close-heavy
file is never repaired, and the repair that comments out a stray
`#endif` embeds the directive's text in a comment that the textual
counter still counts — the final tree counts 6 openers against 8
`#endif`s. -/
theorem C5_counterexample :
    countOpens c5input.toList = countEndif c5input.toList
    ∧ ¬(totalOpens c5files = totalEndifs c5files) := by
  decide

/-- C5 (amended): per generated file, when the common-issue repair
leaves the content unchanged and the open-directive count is at least
the `#endif` count, the pass leaves the file with equal counts: it
appends one repair line per missing `#endif` (only when opens exceed
closes), and each repair line contributes exactly one `#endif` and no
opener.  The totals over all files need not balance: a file with more
`#endif`s than openers is left unrepaired. -/
theorem C5_repair_equalizes (c : String)
    (hfix : (commonIssuesFix c).1 = c)
    (hge : countEndif c.toList ≤ countOpens c.toList) :
    countOpens ((verifyFileStep c).1).toList
      = countEndif ((verifyFileStep c).1).toList := by
  unfold verifyFileStep
  rw [if_pos hfix]
  by_cases hgt : countEndif c.toList < countOpens c.toList
  · rw [if_pos hgt]
    show countOpens (c ++ repeatAppend balanceRepairLine
          (countOpens c.toList - countEndif c.toList)).toList
        = countEndif (c ++ repeatAppend balanceRepairLine
          (countOpens c.toList - countEndif c.toList)).toList
    have htl : (c ++ repeatAppend balanceRepairLine
          (countOpens c.toList - countEndif c.toList)).toList
        = c.toList ++ (repeatAppend balanceRepairLine
          (countOpens c.toList - countEndif c.toList)).toList := rfl
    rw [htl,
      countOpens_append_of_head _ _ (repairLine_repeat_head _ (by omega)),
      countEndif_append_of_head _ _ (repairLine_repeat_head _ (by omega)),
      countOpens_repairLines, countEndif_repairLines]
    omega
  · rw [if_neg hgt]
    show countOpens c.toList = countEndif c.toList
    omega

/-- Witness for C5: on `c5w` the common repair is the identity, opens
exceed closes, and the repaired file has equal counts. -/
theorem C5_repair_equalizes_witness :
    (commonIssuesFix c5w).1 = c5w
    ∧ countEndif c5w.toList ≤ countOpens c5w.toList
    ∧ countOpens ((verifyFileStep c5w).1).toList
        = countEndif ((verifyFileStep c5w).1).toList :=
  ⟨by decide, by decide, C5_repair_equalizes c5w (by decide) (by decide)⟩

end SodSplitter
